import Mathlib

/-!
Shallow embedding of the dependency-aware workflow scheduler of
`app/agents/manager.py` (classes `WorkflowStep`, `Workflow`, `AgentManager`)
together with the parts of `app/agents/base.py` it relies on
(`AgentStatus`, `AgentType`).

Modelling conventions:
* Python `uuid4()` identifiers are caller-supplied `String`s (the code only
  ever compares them for equality); the random suffix of synthesized agent
  ids is modelled by a monotone counter threaded through the run.
* Python dicts with string keys are association lists with Python
  assignment semantics (`dictInsert` replaces in place or appends) and
  Python truthiness (`None` and the empty dict are falsy).
* The agent invocation (`AgentManager.execute_task` down to
  `BaseAgent.execute_task`) is the external collaborator of spec section 6;
  it is abstracted into an environment `Env` mapping the step id and the
  merged input to a `TaskOutcome`: the task coming back `COMPLETED` with an
  `output_data` payload, coming back in another status with an
  `error_message`, or the whole invocation raising an exception (which
  `_execute_workflow_step` catches).
* `asyncio.gather` over one wave of ready steps is determinized into a
  left-to-right fold.  Each coroutine performs agent lookup and input
  merging synchronously before its first suspension point, sibling steps of
  one wave are never dependencies of each other (a dependency must already
  be `COMPLETED`), and only the step's own fields are mutated by its
  executor, so this schedule is observationally faithful.
* `datetime.utcnow().isoformat()` timestamps are opaque; `completed_at`
  is modelled as `Option Unit` recording only presence.
-/

/-- Execution status, from `AgentStatus` in `app/agents/base.py`. -/
inductive AgentStatus where
  | idle
  | running
  | completed
  | error
  | paused
deriving DecidableEq

/-- Agent capability tags, from `AgentType` in `app/agents/base.py`. -/
inductive AgentType where
  | web3_builder
  | code_generator
  | smart_contract
  | ui_designer
  | coordinator
  | validator
  | analysis
deriving DecidableEq

/-- String value of each `AgentType` enum member (`config.type.value`). -/
def AgentType.val : AgentType → String
  | .web3_builder => "web3_builder"
  | .code_generator => "code_generator"
  | .smart_contract => "smart_contract"
  | .ui_designer => "ui_designer"
  | .coordinator => "coordinator"
  | .validator => "validator"
  | .analysis => "analysis"

/-- JSON-like values stored in step inputs and results (`Dict[str, Any]`
payloads are opaque to the scheduler; nesting is needed because a
dependency's whole result dict is stored under one key). -/
inductive Val where
  | vInt : Int → Val
  | vStr : String → Val
  | vBool : Bool → Val
  | vDict : List (String × Val) → Val

/-- Python `Dict[str, Any]` with string keys, as an insertion-ordered
association list. -/
abbrev Dict := List (String × Val)

/-- Lookup in a Python dict. -/
def dictLookup (d : Dict) (k : String) : Option Val :=
  (d.find? (fun p => p.1 == k)).map (fun p => p.2)

/-- Python dict assignment `d[k] = v`: replace the value in place when the
key is present, append otherwise. -/
def dictInsert (d : Dict) (k : String) (v : Val) : Dict :=
  if d.any (fun p => p.1 == k) then
    d.map (fun p => if p.1 == k then (k, v) else p)
  else
    d ++ [(k, v)]

/-- One step of a workflow, from `WorkflowStep` in `app/agents/manager.py`. -/
structure WorkflowStep where
  id : String
  agent_type : AgentType
  task_type : String
  input_data : Dict
  depends_on : List String
  status : AgentStatus
  result : Option Dict
  error : Option String

/-- Constructor `WorkflowStep.__init__`: a fresh step is `IDLE` with no
result and no error (the uuid is the caller-supplied `id`). -/
def WorkflowStep.make (id : String) (agent_type : AgentType) (task_type : String)
    (input_data : Dict) (depends_on : List String) : WorkflowStep :=
  { id := id, agent_type := agent_type, task_type := task_type,
    input_data := input_data, depends_on := depends_on,
    status := AgentStatus.idle, result := none, error := none }

/-- A workflow, from `Workflow` in `app/agents/manager.py`. -/
structure Workflow where
  id : String
  name : String
  description : String
  steps : List WorkflowStep
  status : AgentStatus
  completed_at : Option Unit
  results : List (String × Dict)

/-- Constructor `Workflow.__init__`. -/
def Workflow.make (id name description : String) : Workflow :=
  { id := id, name := name, description := description, steps := [],
    status := AgentStatus.idle, completed_at := none, results := [] }

/-- Method `Workflow.add_step`. -/
def Workflow.add_step (wf : Workflow) (step : WorkflowStep) : Workflow :=
  { wf with steps := wf.steps ++ [step] }

/-- The `dependencies_met` expression inside `Workflow.get_ready_steps`:
every id in `depends_on` names a step of the list whose status is
`COMPLETED`. -/
def dependencies_met (steps : List WorkflowStep) (step : WorkflowStep) : Bool :=
  step.depends_on.all fun dep_id =>
    steps.any fun s => s.id == dep_id && s.status == AgentStatus.completed

/-- Body of `Workflow.get_ready_steps`, over a plain step list. -/
def getReadySteps (steps : List WorkflowStep) : List WorkflowStep :=
  steps.filter fun step =>
    step.status == AgentStatus.idle &&
      (step.depends_on.isEmpty || dependencies_met steps step)

/-- Method `Workflow.get_ready_steps`. -/
def Workflow.get_ready_steps (wf : Workflow) : List WorkflowStep :=
  getReadySteps wf.steps

/-- Body of `Workflow.is_completed`, over a plain step list. -/
def isCompletedSteps (steps : List WorkflowStep) : Bool :=
  steps.all fun s =>
    s.status == AgentStatus.completed || s.status == AgentStatus.error

/-- Method `Workflow.is_completed`. -/
def Workflow.is_completed (wf : Workflow) : Bool :=
  isCompletedSteps wf.steps

/-- One entry of the agent pool (`AgentManager.agents`): the fields of
`BaseAgent` the scheduler reads.  `BaseAgent.__init__` sets `status` to
`IDLE`, and nothing on the workflow execution path ever changes an agent's
`status` (only the chat path `process_message` does). -/
structure AgentEntry where
  id : String
  type : AgentType
  status : AgentStatus

/-- Outcome of one agent invocation (`AgentManager.execute_task` as seen by
`_execute_workflow_step`): a task returned with `status == COMPLETED` and an
`output_data` dict, a task returned in any other status with an
`error_message`, or the invocation raised an exception. -/
inductive TaskOutcome where
  | success : Dict → TaskOutcome
  | failure : String → TaskOutcome
  | raised : String → TaskOutcome

/-- The external agent collaborator: step id and merged input to outcome.
One workflow run invokes each step's executor at most once, so a function
of the step id captures any fixed schedule of agent behaviours. -/
abbrev Env := String → Dict → TaskOutcome

/-- Method `AgentManager._get_or_create_agent_for_step` (specialised to the
agent type of the step).  Scans the pool in insertion order for an idle
agent of the requested type; otherwise registers a new idle agent whose id
is derived from the type's string value and a fresh suffix (`create_agent`
succeeds for every `AgentType`: unknown types silently fall back to the
default `Web3BuilderAgent` implementation, so assignment never fails). -/
def get_or_create_agent_for_step (pool : List AgentEntry) (ctr : Nat) (t : AgentType) :
    String × List AgentEntry × Nat :=
  match pool.find? (fun a => a.type == t && a.status == AgentStatus.idle) with
  | some a => (a.id, pool, ctr)
  | none =>
    let agent_id := t.val ++ "_" ++ toString ctr
    (agent_id, pool ++ [{ id := agent_id, type := t, status := AgentStatus.idle }], ctr + 1)

/-- One iteration of the dependency loop in `_execute_workflow_step`: look
the dependency up in the workflow (`next(...)`) and, when
`dep_step and dep_step.result` is truthy (the step exists and its result is
neither `None` nor the empty dict), assign `dependency_<dep_id> = result`
into the accumulated input. -/
def dep_insert (steps : List WorkflowStep) (acc : Dict) (dep_id : String) : Dict :=
  match steps.find? (fun s => s.id == dep_id) with
  | some dep_step =>
    match dep_step.result with
    | some r =>
      if r.isEmpty then acc
      else dictInsert acc ("dependency_" ++ dep_id) (Val.vDict r)
    | none => acc
  | none => acc

/-- The merged-input construction in `_execute_workflow_step`: copy
`step.input_data`, then run the dependency loop over `depends_on`. -/
def merged_input (steps : List WorkflowStep) (step : WorkflowStep) : Dict :=
  step.depends_on.foldl (dep_insert steps) step.input_data

/-- Reduction of the invocation outcome back onto the step, from the tail
of `_execute_workflow_step`: on `COMPLETED`, record the output as the
result; on any other task status, or on an exception caught by the
per-step handler, record the error message. -/
def applyOutcome (step : WorkflowStep) : TaskOutcome → WorkflowStep
  | TaskOutcome.success out =>
      { step with status := AgentStatus.completed, result := some out }
  | TaskOutcome.failure msg =>
      { step with status := AgentStatus.error, error := some msg }
  | TaskOutcome.raised msg =>
      { step with status := AgentStatus.error, error := some msg }

/-- Record of one executor dispatch: which step ran, on which agent handle,
with which merged input. -/
structure Dispatch where
  step_id : String
  agent_id : String
  input : Dict

/-- State threaded through the scheduler loop of `execute_workflow`. -/
structure SchedState where
  steps : List WorkflowStep
  wstatus : AgentStatus
  pool : List AgentEntry
  ctr : Nat
  trace : List (List Dispatch)

/-- State threaded through one wave of concurrently dispatched steps. -/
structure WaveState where
  steps : List WorkflowStep
  pool : List AgentEntry
  ctr : Nat
  wave : List Dispatch

/-- The `step.status = AgentStatus.RUNNING` marking applied to every ready
step before the batch is dispatched. -/
def markRunning (steps : List WorkflowStep) (ids : List String) : List WorkflowStep :=
  steps.map fun s =>
    if ids.contains s.id then { s with status := AgentStatus.running } else s

/-- Update every step carrying the given id. -/
def updateStep (steps : List WorkflowStep) (sid : String)
    (f : WorkflowStep → WorkflowStep) : List WorkflowStep :=
  steps.map fun s => if s.id == sid then f s else s

/-- One `_execute_workflow_step` coroutine: find or create the agent, build
the merged input, invoke the agent, and reduce the outcome onto the step.
The per-step `try`/`except` is reflected in `TaskOutcome.raised` being
absorbed by `applyOutcome` rather than propagated. -/
def dispatch_step (env : Env) (ws : WaveState) (sid : String) : WaveState :=
  match ws.steps.find? (fun s => s.id == sid) with
  | none => ws
  | some step =>
    let assigned := get_or_create_agent_for_step ws.pool ws.ctr step.agent_type
    let inp := merged_input ws.steps step
    let outcome := env sid inp
    { steps := updateStep ws.steps sid (fun s => applyOutcome s outcome),
      pool := assigned.2.1, ctr := assigned.2.2,
      wave := ws.wave ++ [{ step_id := sid, agent_id := assigned.1, input := inp }] }

/-- One wave of `execute_workflow`: mark every ready step `RUNNING`, then
dispatch them all and wait for the whole batch (`asyncio.gather`),
determinized left to right. -/
def run_wave (env : Env) (st : SchedState) (ready : List String) : SchedState :=
  let ws0 : WaveState :=
    { steps := markRunning st.steps ready, pool := st.pool, ctr := st.ctr, wave := [] }
  let ws := ready.foldl (dispatch_step env) ws0
  { steps := ws.steps, wstatus := st.wstatus, pool := ws.pool, ctr := ws.ctr,
    trace := st.trace ++ [ws.wave] }

/-- The `while not workflow.is_completed()` loop of
`AgentManager.execute_workflow`: when no step is ready but idle steps
remain, mark the workflow `ERROR` and break (deadlock); when no step is
ready and none is idle, re-evaluate; otherwise run the wave of ready steps.
The loop leaves at least one ready step per productive iteration, and every
dispatched step reaches a terminal status, so `steps.length + 1` units of
fuel always suffice (proved below as `sched_loop_exits`). -/
def sched_loop (env : Env) : Nat → SchedState → SchedState
  | 0, st => st
  | fuel + 1, st =>
    if isCompletedSteps st.steps then st
    else
      let ready := getReadySteps st.steps
      if ready.isEmpty then
        if st.steps.any (fun s => s.status == AgentStatus.idle) then
          { st with wstatus := AgentStatus.error }
        else
          sched_loop env fuel st
      else
        sched_loop env fuel (run_wave env st (ready.map (fun s => s.id)))

/-- Result of `AgentManager.execute_workflow`: the final workflow object
plus the updated agent pool and the dispatch trace. -/
structure ExecResult where
  workflow : Workflow
  pool : List AgentEntry
  ctr : Nat
  trace : List (List Dispatch)

/-- Body of `AgentManager.execute_workflow` for a workflow that exists: set
the workflow `RUNNING`, run the scheduler loop, then recompute the final
status (`ERROR` iff any step ended in `ERROR`, else `COMPLETED` with
`completed_at` stamped — note this recomputation runs even after the
deadlock branch already set `ERROR`), and collect
`{step.id: step.result for step in steps if step.result}` with Python
truthiness (a `None` or empty result contributes nothing). -/
def execute_workflow_core (env : Env) (pool : List AgentEntry) (ctr : Nat)
    (wf : Workflow) : ExecResult :=
  let st0 : SchedState :=
    { steps := wf.steps, wstatus := AgentStatus.running, pool := pool, ctr := ctr,
      trace := [] }
  let st := sched_loop env (wf.steps.length + 1) st0
  let wf1 : Workflow :=
    if st.steps.any (fun s => s.status == AgentStatus.error) then
      { wf with steps := st.steps, status := AgentStatus.error }
    else
      { wf with steps := st.steps, status := AgentStatus.completed,
                completed_at := some () }
  let wf2 : Workflow :=
    { wf1 with
      results := st.steps.filterMap fun s =>
        match s.result with
        | some r => if r.isEmpty then none else some (s.id, r)
        | none => none }
  { workflow := wf2, pool := st.pool, ctr := st.ctr, trace := st.trace }

/-- The manager state: registered agents, workflows, and the freshness
counter standing in for uuid suffixes of synthesized agent ids. -/
structure AgentManager where
  agents : List AgentEntry
  workflows : List (String × Workflow)
  ctr : Nat

/-- Manager produced by `AgentManager.__init__`:
`_initialize_default_agents` registers one idle `web3_builder` agent under
the key `"web3_builder"`. -/
def AgentManager.make : AgentManager :=
  { agents := [{ id := "web3_builder", type := AgentType.web3_builder,
                 status := AgentStatus.idle }],
    workflows := [], ctr := 0 }

/-- Method `AgentManager.create_workflow` (uuid supplied by the caller). -/
def AgentManager.create_workflow (m : AgentManager) (wid name description : String) :
    AgentManager :=
  { m with workflows := m.workflows ++ [(wid, Workflow.make wid name description)] }

/-- Method `AgentManager.add_workflow_step` (uuid supplied by the caller):
appends a fresh `IDLE` step to the named workflow. -/
def AgentManager.add_workflow_step (m : AgentManager) (workflow_id sid : String)
    (agent_type : AgentType) (task_type : String) (input_data : Dict)
    (depends_on : List String) : AgentManager :=
  { m with workflows := m.workflows.map fun p =>
      if p.1 == workflow_id then
        (p.1, p.2.add_step (WorkflowStep.make sid agent_type task_type input_data depends_on))
      else p }

/-- Method `AgentManager.execute_workflow`: raises `ValueError` when the
workflow id is unknown (the only exception that can escape: every failure
inside the loop is caught at the per-step boundary), otherwise runs the
scheduler and returns the result, with the manager's agent pool updated. -/
def AgentManager.execute_workflow (env : Env) (m : AgentManager)
    (workflow_id : String) : Except String (ExecResult × AgentManager) :=
  match m.workflows.find? (fun p => p.1 == workflow_id) with
  | none => Except.error ("Workflow " ++ workflow_id ++ " not found")
  | some p =>
    let res := execute_workflow_core env m.agents m.ctr p.2
    Except.ok (res,
      { m with agents := res.pool, ctr := res.ctr,
               workflows := m.workflows.map fun q =>
                 if q.1 == workflow_id then (q.1, res.workflow) else q })

/-! ### Concrete scenarios used to instantiate and refute the claims -/

/-- Environment in which every invocation succeeds with a one-entry dict. -/
def exEnvAll : Env := fun _ _ => TaskOutcome.success [("k", Val.vInt 7)]

/-- Environment in which step `"E"` raises and everything else succeeds. -/
def exEnvFailE : Env := fun sid _ =>
  if sid == "E" then TaskOutcome.raised "boom"
  else TaskOutcome.success [("k", Val.vInt 7)]

/-- Environment for the linear chain: `"A"` succeeds with a non-empty
result, everything else succeeds with another dict. -/
def exEnvChain : Env := fun sid _ =>
  if sid == "A" then TaskOutcome.success [("x", Val.vInt 1)]
  else TaskOutcome.success [("y", Val.vInt 2)]

/-- Environment in which `"A"` succeeds with the EMPTY dict (a legal agent
output under the collaborator contract) and everything else succeeds with a
non-empty one. -/
def exEnvEmptyA : Env := fun sid _ =>
  if sid == "A" then TaskOutcome.success []
  else TaskOutcome.success [("y", Val.vInt 2)]

/-- Two steps forming a dependency cycle: neither can ever become ready. -/
def exStepCycA : WorkflowStep :=
  WorkflowStep.make "A" AgentType.web3_builder "t" [] ["B"]

def exStepCycB : WorkflowStep :=
  WorkflowStep.make "B" AgentType.web3_builder "t" [] ["A"]

def exWfCyc : Workflow :=
  ((Workflow.make "w" "n" "d").add_step exStepCycA).add_step exStepCycB

/-- Step `E` with no dependencies (whose invocation will raise) and step
`F` depending on `E`. -/
def exStepE : WorkflowStep :=
  WorkflowStep.make "E" AgentType.web3_builder "t" [] []

def exStepF : WorkflowStep :=
  WorkflowStep.make "F" AgentType.web3_builder "t" [] ["E"]

def exWfEF : Workflow :=
  ((Workflow.make "w" "n" "d").add_step exStepE).add_step exStepF

/-- Linear chain: `A` with no dependencies, `B` depending on `A` with one
caller-supplied input key. -/
def exStepA : WorkflowStep :=
  WorkflowStep.make "A" AgentType.web3_builder "t" [] []

def exStepB : WorkflowStep :=
  WorkflowStep.make "B" AgentType.web3_builder "t" [("own", Val.vInt 9)] ["A"]

def exWfChain : Workflow :=
  ((Workflow.make "w" "n" "d").add_step exStepA).add_step exStepB

/-- Single-step workflow used for the results-collection scenarios. -/
def exStepS : WorkflowStep :=
  WorkflowStep.make "A" AgentType.web3_builder "t" [] []

def exWfS : Workflow :=
  (Workflow.make "w" "n" "d").add_step exStepS

/-- Step whose `depends_on` names no step of its workflow. -/
def exStepG : WorkflowStep :=
  WorkflowStep.make "G" AgentType.web3_builder "t" [] ["missing"]

def exWfG : Workflow :=
  (Workflow.make "w" "n" "d").add_step exStepG

/-- Step whose agent type has no dedicated implementation and no pool
entry (`VALIDATOR` is never registered by `_initialize_default_agents`). -/
def exStepH : WorkflowStep :=
  WorkflowStep.make "H" AgentType.validator "t" [] []

def exWfH : Workflow :=
  (Workflow.make "w" "n" "d").add_step exStepH

/-- Two independent steps of the same agent type, dispatched in one wave. -/
def exStepC : WorkflowStep :=
  WorkflowStep.make "C" AgentType.web3_builder "t" [] []

def exStepD : WorkflowStep :=
  WorkflowStep.make "D" AgentType.web3_builder "t" [] []

def exWfCD : Workflow :=
  ((Workflow.make "w" "n" "d").add_step exStepC).add_step exStepD

/-- A manager holding the chain workflow under id `"w1"`, built through the
construction interface. -/
def exMgrChain : AgentManager :=
  { AgentManager.make with workflows := [("w1", exWfChain)] }

/-- A manager holding two single-step workflows, used to run two sequential
workflows of the same agent type. -/
def exMgrTwo : AgentManager :=
  { AgentManager.make with workflows := [("w1", exWfS), ("w2", exWfCD)] }

/-! ### Library of facts about the embedded definitions -/

theorem find?_map_replace_self (t : Dict) (k : String) (v : Val)
    (h : t.any (fun p => p.1 == k) = true) :
    (t.map (fun p => if p.1 == k then (k, v) else p)).find? (fun p => p.1 == k) =
      some (k, v) := by
  induction t with
  | nil => simp at h
  | cons p t ih =>
    rw [List.map_cons]
    by_cases hp : p.1 = k
    · have hhead : (if p.1 == k then (k, v) else p) = (k, v) := by simp [hp]
      rw [hhead]
      rw [List.find?_cons_of_pos]
      simp
    · have hhead : (if p.1 == k then (k, v) else p) = p := by simp [hp]
      rw [hhead]
      rw [List.find?_cons_of_neg]
      · apply ih
        simp only [List.any_cons, Bool.or_eq_true] at h
        rcases h with h | h
        · exact absurd (by simpa using h) hp
        · exact h
      · simp [hp]

theorem find?_map_replace_ne (t : Dict) (k k' : String) (v : Val) (h : k' ≠ k) :
    (t.map (fun p => if p.1 == k then (k, v) else p)).find? (fun p => p.1 == k') =
      t.find? (fun p => p.1 == k') := by
  induction t with
  | nil => rfl
  | cons p t ih =>
    rw [List.map_cons]
    by_cases hp : p.1 = k
    · have hhead : (if p.1 == k then (k, v) else p) = (k, v) := by simp [hp]
      rw [hhead]
      rw [List.find?_cons_of_neg, List.find?_cons_of_neg]
      · exact ih
      · simp only [beq_iff_eq, hp]
        intro hh
        exact h hh.symm
      · simp only [beq_iff_eq, hp]
        intro hh
        exact h hh.symm
    · have hhead : (if p.1 == k then (k, v) else p) = p := by simp [hp]
      rw [hhead]
      by_cases hp' : p.1 = k'
      · rw [List.find?_cons_of_pos, List.find?_cons_of_pos]
        · simpa using hp'
        · simpa using hp'
      · rw [List.find?_cons_of_neg, List.find?_cons_of_neg]
        · exact ih
        · simpa using hp'
        · simpa using hp'

theorem dictLookup_insert (d : Dict) (k : String) (v : Val) (k' : String) :
    dictLookup (dictInsert d k v) k' =
      if k' = k then some v else dictLookup d k' := by
  unfold dictInsert dictLookup
  by_cases hany : d.any (fun p => p.1 == k) = true
  · simp only [hany, if_true]
    by_cases hk : k' = k
    · subst hk
      rw [find?_map_replace_self d k' v hany]
      simp
    · rw [find?_map_replace_ne d k k' v hk]
      simp [hk]
  · have hany' : d.any (fun p => p.1 == k) = false := by
      exact Bool.eq_false_iff.mpr hany
    simp only [hany', Bool.false_eq_true, if_false]
    rw [List.find?_append]
    by_cases hk : k' = k
    · have hnone : d.find? (fun p => p.1 == k') = none := by
        rw [List.find?_eq_none]
        intro p hp
        have h2 := List.any_eq_false.mp hany' p hp
        simp only [beq_iff_eq] at h2 ⊢
        rw [hk]
        exact h2
      rw [hnone]
      have hone : List.find? (fun p => p.1 == k') [(k, v)] = some (k, v) := by
        rw [List.find?_cons_of_pos]
        simp only [beq_iff_eq]
        exact hk.symm
      rw [hone]
      simp [hk]
    · have hone : List.find? (fun p => p.1 == k') [(k, v)] = none := by
        rw [List.find?_eq_none]
        intro p hp
        simp at hp
        subst hp
        simpa using fun hh => hk hh.symm
      rw [hone]
      simp [hk]

theorem applyOutcome_id (s : WorkflowStep) (o : TaskOutcome) :
    (applyOutcome s o).id = s.id := by
  cases o <;> rfl

theorem applyOutcome_input_data (s : WorkflowStep) (o : TaskOutcome) :
    (applyOutcome s o).input_data = s.input_data := by
  cases o <;> rfl

theorem applyOutcome_depends_on (s : WorkflowStep) (o : TaskOutcome) :
    (applyOutcome s o).depends_on = s.depends_on := by
  cases o <;> rfl

theorem applyOutcome_agent_type (s : WorkflowStep) (o : TaskOutcome) :
    (applyOutcome s o).agent_type = s.agent_type := by
  cases o <;> rfl

theorem applyOutcome_task_type (s : WorkflowStep) (o : TaskOutcome) :
    (applyOutcome s o).task_type = s.task_type := by
  cases o <;> rfl

theorem applyOutcome_terminal (s : WorkflowStep) (o : TaskOutcome) :
    (applyOutcome s o).status = AgentStatus.completed ∨
      (applyOutcome s o).status = AgentStatus.error := by
  cases o
  · exact Or.inl rfl
  · exact Or.inr rfl
  · exact Or.inr rfl

theorem applyOutcome_status_ne_idle (s : WorkflowStep) (o : TaskOutcome) :
    (applyOutcome s o).status ≠ AgentStatus.idle := by
  rcases applyOutcome_terminal s o with h | h <;> rw [h] <;> intro hc <;> cases hc

theorem mem_getReadySteps {steps : List WorkflowStep} {s : WorkflowStep} :
    s ∈ getReadySteps steps ↔
      s ∈ steps ∧ s.status = AgentStatus.idle ∧
        ∀ dep_id ∈ s.depends_on,
          ∃ t ∈ steps, t.id = dep_id ∧ t.status = AgentStatus.completed := by
  unfold getReadySteps
  rw [List.mem_filter]
  constructor
  · rintro ⟨hmem, hcond⟩
    simp only [Bool.and_eq_true, Bool.or_eq_true, beq_iff_eq] at hcond
    obtain ⟨hidle, hdep⟩ := hcond
    refine ⟨hmem, hidle, ?_⟩
    intro dep hdmem
    rcases hdep with hemp | hmet
    · rw [List.isEmpty_iff] at hemp
      rw [hemp] at hdmem
      simp at hdmem
    · unfold dependencies_met at hmet
      rw [List.all_eq_true] at hmet
      have hx := hmet dep hdmem
      rw [List.any_eq_true] at hx
      obtain ⟨t, ht, hc⟩ := hx
      simp only [Bool.and_eq_true, beq_iff_eq] at hc
      exact ⟨t, ht, hc.1, hc.2⟩
  · rintro ⟨hmem, hidle, hdep⟩
    refine ⟨hmem, ?_⟩
    simp only [Bool.and_eq_true, Bool.or_eq_true, beq_iff_eq]
    refine ⟨hidle, Or.inr ?_⟩
    unfold dependencies_met
    rw [List.all_eq_true]
    intro dep hdmem
    obtain ⟨t, ht, h1, h2⟩ := hdep dep hdmem
    rw [List.any_eq_true]
    exact ⟨t, ht, by simp [h1, h2]⟩

theorem getReadySteps_ids_nodup {steps : List WorkflowStep}
    (h : (steps.map (fun s => s.id)).Nodup) :
    ((getReadySteps steps).map (fun s => s.id)).Nodup :=
  List.Nodup.sublist (List.Sublist.map _ (List.filter_sublist steps)) h

theorem eq_of_mem_of_id_eq {steps : List WorkflowStep}
    (h : (steps.map (fun s => s.id)).Nodup)
    {s t : WorkflowStep} (hs : s ∈ steps) (ht : t ∈ steps) (hid : s.id = t.id) :
    s = t :=
  List.inj_on_of_nodup_map h hs ht hid

theorem isCompletedSteps_iff {steps : List WorkflowStep} :
    isCompletedSteps steps = true ↔
      ∀ s ∈ steps, s.status = AgentStatus.completed ∨ s.status = AgentStatus.error := by
  unfold isCompletedSteps
  rw [List.all_eq_true]
  constructor
  · intro h s hs
    have := h s hs
    simpa using this
  · intro h s hs
    have := h s hs
    simpa using this

theorem idle_of_id_mem_readyIds {steps : List WorkflowStep}
    (hnd : (steps.map (fun s => s.id)).Nodup) {s : WorkflowStep}
    (hs : s ∈ steps) (hmem : s.id ∈ (getReadySteps steps).map (fun t => t.id)) :
    s.status = AgentStatus.idle ∧
      ∀ dep_id ∈ s.depends_on,
        ∃ t ∈ steps, t.id = dep_id ∧ t.status = AgentStatus.completed := by
  rw [List.mem_map] at hmem
  obtain ⟨t, ht, hid⟩ := hmem
  rw [mem_getReadySteps] at ht
  obtain ⟨htmem, hidle, hdep⟩ := ht
  have : s = t := eq_of_mem_of_id_eq hnd hs htmem hid.symm
  subst this
  exact ⟨hidle, hdep⟩

theorem id_mem_readyIds_of_ready {steps : List WorkflowStep} {s : WorkflowStep}
    (hs : s ∈ steps) (hidle : s.status = AgentStatus.idle)
    (hdep : ∀ dep_id ∈ s.depends_on,
      ∃ t ∈ steps, t.id = dep_id ∧ t.status = AgentStatus.completed) :
    s.id ∈ (getReadySteps steps).map (fun t => t.id) := by
  rw [List.mem_map]
  exact ⟨s, mem_getReadySteps.mpr ⟨hs, hidle, hdep⟩, rfl⟩

theorem map_ids_eq {steps : List WorkflowStep} {g : WorkflowStep → WorkflowStep}
    (h : ∀ s, (g s).id = s.id) :
    (steps.map g).map (fun s => s.id) = steps.map (fun s => s.id) := by
  rw [List.map_map]
  exact List.map_congr_left (fun s _ => h s)

theorem fold_dispatch_shape (env : Env) :
    ∀ (rs : List String) (ws : WaveState), rs.Nodup →
      (∀ sid ∈ rs, sid ∈ ws.steps.map (fun s => s.id)) →
      ∃ g : WorkflowStep → WorkflowStep,
        (rs.foldl (dispatch_step env) ws).steps = ws.steps.map g ∧
        (∀ s, s.id ∉ rs → g s = s) ∧
        (∀ s, s.id ∈ rs → ∃ inp, g s = applyOutcome s (env s.id inp)) ∧
        ((rs.foldl (dispatch_step env) ws).wave).map (fun d => d.step_id) =
          ws.wave.map (fun d => d.step_id) ++ rs := by
  intro rs
  induction rs with
  | nil =>
    intro ws _ _
    refine ⟨id, ?_, fun s _ => rfl, fun s hs => absurd hs (List.not_mem_nil _), ?_⟩
    · rw [List.map_id]
      rfl
    · simp
  | cons sid rest ih =>
    intro ws hnd hmem
    have hsidmem : sid ∈ ws.steps.map (fun s => s.id) := hmem sid (List.mem_cons_self _ _)
    obtain ⟨step0, hfind⟩ : ∃ step0, ws.steps.find? (fun s => s.id == sid) = some step0 := by
      have hsome : (ws.steps.find? (fun s => s.id == sid)).isSome := by
        rw [List.find?_isSome]
        rw [List.mem_map] at hsidmem
        obtain ⟨s, hs, hsid⟩ := hsidmem
        exact ⟨s, hs, by simp [hsid]⟩
      exact Option.isSome_iff_exists.mp hsome
    have hsidnotr : sid ∉ rest := (List.nodup_cons.mp hnd).1
    have hndr : rest.Nodup := (List.nodup_cons.mp hnd).2
    rw [List.foldl_cons]
    have hds : dispatch_step env ws sid =
        { steps := updateStep ws.steps sid
            (fun s => applyOutcome s (env sid (merged_input ws.steps step0))),
          pool := (get_or_create_agent_for_step ws.pool ws.ctr step0.agent_type).2.1,
          ctr := (get_or_create_agent_for_step ws.pool ws.ctr step0.agent_type).2.2,
          wave := ws.wave ++
            [{ step_id := sid,
               agent_id := (get_or_create_agent_for_step ws.pool ws.ctr step0.agent_type).1,
               input := merged_input ws.steps step0 }] } := by
      unfold dispatch_step
      rw [hfind]
    have hupd : ∀ s : WorkflowStep,
        ((fun s => if s.id == sid
            then applyOutcome s (env sid (merged_input ws.steps step0)) else s) s).id = s.id := by
      intro s
      by_cases hc : s.id = sid
      · simp [hc, applyOutcome_id]
      · simp [hc]
    have hmem' : ∀ sid' ∈ rest,
        sid' ∈ (dispatch_step env ws sid).steps.map (fun s => s.id) := by
      intro sid' hs'
      rw [hds]
      show sid' ∈ (updateStep ws.steps sid _).map (fun s => s.id)
      unfold updateStep
      rw [map_ids_eq hupd]
      exact hmem sid' (List.mem_cons_of_mem _ hs')
    obtain ⟨g', hsteps', hunt', htch', hwave'⟩ := ih (dispatch_step env ws sid) hndr hmem'
    have hsteps_eq : (dispatch_step env ws sid).steps = updateStep ws.steps sid
        (fun s => applyOutcome s (env sid (merged_input ws.steps step0))) := by
      rw [hds]
    have hwave_eq : (dispatch_step env ws sid).wave = ws.wave ++
        [{ step_id := sid,
           agent_id := (get_or_create_agent_for_step ws.pool ws.ctr step0.agent_type).1,
           input := merged_input ws.steps step0 }] := by
      rw [hds]
    refine ⟨fun s =>
      g' (if s.id == sid
        then applyOutcome s (env sid (merged_input ws.steps step0)) else s), ?_, ?_, ?_, ?_⟩
    · rw [hsteps', hsteps_eq]
      unfold updateStep
      rw [List.map_map]
      rfl
    · intro s hs
      have h1 : s.id ≠ sid := fun hc => hs (hc ▸ List.mem_cons_self _ _)
      have h2 : s.id ∉ rest := fun hc => hs (List.mem_cons_of_mem _ hc)
      show g' (if s.id == sid
        then applyOutcome s (env sid (merged_input ws.steps step0)) else s) = s
      rw [if_neg (by simpa using h1)]
      exact hunt' s h2
    · intro s hs
      show ∃ inp, g' (if s.id == sid
        then applyOutcome s (env sid (merged_input ws.steps step0)) else s) =
          applyOutcome s (env s.id inp)
      rcases List.mem_cons.mp hs with heq | hrest
      · rw [if_pos (by simpa using heq)]
        have hidrest : (applyOutcome s (env sid (merged_input ws.steps step0))).id ∉ rest := by
          rw [applyOutcome_id, heq]
          exact hsidnotr
        rw [hunt' _ hidrest]
        refine ⟨merged_input ws.steps step0, ?_⟩
        rw [heq]
      · have hne : s.id ≠ sid := by
          intro hc
          exact hsidnotr (hc ▸ hrest)
        rw [if_neg (by simpa using hne)]
        exact htch' s hrest
    · rw [hwave', hwave_eq]
      simp

theorem run_wave_shape (env : Env) (st : SchedState) (ready : List String)
    (hnd : ready.Nodup)
    (hmem : ∀ sid ∈ ready, sid ∈ st.steps.map (fun s => s.id)) :
    ∃ g : WorkflowStep → WorkflowStep,
      (run_wave env st ready).steps = st.steps.map g ∧
      (∀ s, s.id ∉ ready → g s = s) ∧
      (∀ s, s.id ∈ ready →
        ∃ inp, g s = applyOutcome { s with status := AgentStatus.running } (env s.id inp)) ∧
      ∃ w, (run_wave env st ready).trace = st.trace ++ [w] ∧
        w.map (fun d => d.step_id) = ready := by
  have hmark : ∀ s : WorkflowStep,
      ((fun s => if ready.contains s.id
        then { s with status := AgentStatus.running } else s) s).id = s.id := by
    intro s
    show (if ready.contains s.id = true then
      { s with status := AgentStatus.running } else s).id = s.id
    by_cases hc : ready.contains s.id = true
    · rw [if_pos hc]
    · rw [if_neg hc]
  have hws0 : (WaveState.mk (markRunning st.steps ready) st.pool st.ctr []).steps =
      st.steps.map (fun s => if ready.contains s.id
        then { s with status := AgentStatus.running } else s) := rfl
  have hmem0 : ∀ sid ∈ ready,
      sid ∈ (WaveState.mk (markRunning st.steps ready) st.pool st.ctr []).steps.map
        (fun s => s.id) := by
    intro sid hs
    rw [hws0, map_ids_eq hmark]
    exact hmem sid hs
  obtain ⟨g', hsteps', hunt', htch', hwave'⟩ :=
    fold_dispatch_shape env ready (WaveState.mk (markRunning st.steps ready) st.pool st.ctr [])
      hnd hmem0
  have hrw_steps : (run_wave env st ready).steps =
      (ready.foldl (dispatch_step env)
        (WaveState.mk (markRunning st.steps ready) st.pool st.ctr [])).steps := rfl
  have hrw_trace : (run_wave env st ready).trace = st.trace ++
      [(ready.foldl (dispatch_step env)
        (WaveState.mk (markRunning st.steps ready) st.pool st.ctr [])).wave] := rfl
  refine ⟨fun s =>
    g' (if ready.contains s.id then { s with status := AgentStatus.running } else s),
    ?_, ?_, ?_, ?_⟩
  · rw [hrw_steps, hsteps', hws0, List.map_map]
    rfl
  · intro s hs
    have hc : ready.contains s.id = false := by
      rw [List.contains_eq_any_beq]
      rw [List.any_eq_false]
      intro x hx
      simp only [beq_iff_eq]
      intro hxe
      exact hs (hxe ▸ hx)
    show g' (if ready.contains s.id then { s with status := AgentStatus.running } else s) = s
    rw [hc]
    simpa using hunt' s hs
  · intro s hs
    have hc : ready.contains s.id = true := by
      rw [List.contains_eq_any_beq]
      rw [List.any_eq_true]
      exact ⟨s.id, hs, by simp⟩
    show ∃ inp,
      g' (if ready.contains s.id then { s with status := AgentStatus.running } else s) =
        applyOutcome { s with status := AgentStatus.running } (env s.id inp)
    rw [hc]
    simp only [if_true]
    have hid : ({ s with status := AgentStatus.running } : WorkflowStep).id = s.id := rfl
    obtain ⟨inp, hinp⟩ := htch' { s with status := AgentStatus.running } (by rw [hid]; exact hs)
    exact ⟨inp, by rw [hinp, hid]⟩
  · refine ⟨(ready.foldl (dispatch_step env)
      (WaveState.mk (markRunning st.steps ready) st.pool st.ctr [])).wave, hrw_trace, ?_⟩
    simpa using hwave'

theorem run_wave_ids (env : Env) (st : SchedState) (ready : List String)
    (hnd : ready.Nodup)
    (hmem : ∀ sid ∈ ready, sid ∈ st.steps.map (fun s => s.id)) :
    (run_wave env st ready).steps.map (fun s => s.id) =
      st.steps.map (fun s => s.id) := by
  obtain ⟨g, hsteps, hunt, htch, _⟩ := run_wave_shape env st ready hnd hmem
  rw [hsteps]
  apply map_ids_eq
  intro s
  by_cases hc : s.id ∈ ready
  · obtain ⟨inp, hg⟩ := htch s hc
    rw [hg, applyOutcome_id]
  · rw [hunt s hc]

theorem sched_loop_succ (env : Env) (fuel : Nat) (st : SchedState) :
    sched_loop env (fuel + 1) st =
      if isCompletedSteps st.steps then st
      else if (getReadySteps st.steps).isEmpty then
        (if st.steps.any (fun s => s.status == AgentStatus.idle)
          then { st with wstatus := AgentStatus.error }
          else sched_loop env fuel st)
      else sched_loop env fuel
        (run_wave env st ((getReadySteps st.steps).map (fun s => s.id))) := rfl

theorem readyIds_subset (steps : List WorkflowStep) :
    ∀ sid ∈ (getReadySteps steps).map (fun s => s.id), sid ∈ steps.map (fun s => s.id) :=
  fun _ hs => (List.Sublist.subset (List.Sublist.map _ (List.filter_sublist steps))) hs

theorem sched_loop_shape (env : Env) :
    ∀ (fuel : Nat) (st : SchedState), (st.steps.map (fun s => s.id)).Nodup →
      ∃ (g : WorkflowStep → WorkflowStep) (waves : List (List Dispatch)),
        (sched_loop env fuel st).steps = st.steps.map g ∧
        (sched_loop env fuel st).trace = st.trace ++ waves ∧
        ∀ s ∈ st.steps,
          (s.id ∈ waves.flatten.map (fun d => d.step_id) →
            s.status = AgentStatus.idle ∧
              ∃ inp, g s = applyOutcome { s with status := AgentStatus.running }
                (env s.id inp)) ∧
          (s.id ∉ waves.flatten.map (fun d => d.step_id) → g s = s) := by
  intro fuel
  induction fuel with
  | zero =>
    intro st _
    refine ⟨id, [], ?_, ?_, ?_⟩
    · show st.steps = st.steps.map id
      rw [List.map_id]
    · show st.trace = st.trace ++ []
      rw [List.append_nil]
    · intro s _
      exact ⟨fun h => by simp at h, fun _ => rfl⟩
  | succ fuel ih =>
    intro st hnd
    rw [sched_loop_succ]
    by_cases hcomp : isCompletedSteps st.steps = true
    · rw [if_pos hcomp]
      refine ⟨id, [], ?_, ?_, ?_⟩
      · show st.steps = st.steps.map id
        rw [List.map_id]
      · show st.trace = st.trace ++ []
        rw [List.append_nil]
      · intro s _
        exact ⟨fun h => by simp at h, fun _ => rfl⟩
    · rw [if_neg hcomp]
      by_cases hready : (getReadySteps st.steps).isEmpty = true
      · rw [if_pos hready]
        by_cases hidle : st.steps.any (fun s => s.status == AgentStatus.idle) = true
        · rw [if_pos hidle]
          refine ⟨id, [], ?_, ?_, ?_⟩
          · show st.steps = st.steps.map id
            rw [List.map_id]
          · show st.trace = st.trace ++ []
            rw [List.append_nil]
          · intro s _
            exact ⟨fun h => by simp at h, fun _ => rfl⟩
        · rw [if_neg hidle]
          exact ih st hnd
      · rw [if_neg hready]
        have hrnd : ((getReadySteps st.steps).map (fun s => s.id)).Nodup :=
          getReadySteps_ids_nodup hnd
        have hrmem := readyIds_subset st.steps
        obtain ⟨g₁, hsteps₁, hunt₁, htch₁, w, htr₁, hwid⟩ :=
          run_wave_shape env st ((getReadySteps st.steps).map (fun s => s.id)) hrnd hrmem
        have hnd' : ((run_wave env st
            ((getReadySteps st.steps).map (fun s => s.id))).steps.map
              (fun s => s.id)).Nodup := by
          rw [run_wave_ids env st _ hrnd hrmem]
          exact hnd
        obtain ⟨g₂, waves₂, hsteps₂, htr₂, hprop₂⟩ := ih _ hnd'
        refine ⟨fun s => g₂ (g₁ s), w :: waves₂, ?_, ?_, ?_⟩
        · rw [hsteps₂, hsteps₁, List.map_map]
          rfl
        · rw [htr₂, htr₁]
          simp
        · intro s hs
          have hsmem' : g₁ s ∈ (run_wave env st
              ((getReadySteps st.steps).map (fun s => s.id))).steps := by
            rw [hsteps₁]
            exact List.mem_map.mpr ⟨s, hs, rfl⟩
          have hflat : (w :: waves₂).flatten.map (fun d => d.step_id) =
              (getReadySteps st.steps).map (fun s => s.id) ++
                waves₂.flatten.map (fun d => d.step_id) := by
            simp [hwid]
          by_cases hin : s.id ∈ (getReadySteps st.steps).map (fun s => s.id)
          · have hidle2 := idle_of_id_mem_readyIds hnd hs hin
            obtain ⟨inp, hg₁⟩ := htch₁ s hin
            have hterm := applyOutcome_terminal
              { s with status := AgentStatus.running } (env s.id inp)
            have hnotw2 : (g₁ s).id ∉ waves₂.flatten.map (fun d => d.step_id) := by
              intro hc
              have := (hprop₂ (g₁ s) hsmem').1 hc
              rcases hterm with ht | ht <;>
                rw [hg₁] at this <;> rw [ht] at this <;> cases this.1
            have hg₂ : g₂ (g₁ s) = g₁ s := (hprop₂ (g₁ s) hsmem').2 hnotw2
            constructor
            · intro _
              refine ⟨hidle2.1, ⟨inp, ?_⟩⟩
              show g₂ (g₁ s) = _
              rw [hg₂, hg₁]
            · intro hcon
              rw [hflat] at hcon
              exact absurd (List.mem_append_left _ hin) hcon
          · have hg₁ : g₁ s = s := hunt₁ s hin
            have hsmem'' : s ∈ (run_wave env st
                ((getReadySteps st.steps).map (fun s => s.id))).steps := by
              rw [hg₁] at hsmem'
              exact hsmem'
            constructor
            · intro hmem2
              rw [hflat] at hmem2
              rcases List.mem_append.mp hmem2 with hl | hr
              · exact absurd hl hin
              · have hh := (hprop₂ s hsmem'').1 hr
                refine ⟨hh.1, ?_⟩
                obtain ⟨inp2, h2⟩ := hh.2
                refine ⟨inp2, ?_⟩
                show g₂ (g₁ s) = _
                rw [hg₁]
                exact h2
            · intro hmem2
              rw [hflat] at hmem2
              have hr : s.id ∉ waves₂.flatten.map (fun d => d.step_id) := by
                intro hc
                exact hmem2 (List.mem_append_right _ hc)
              have hh := (hprop₂ s hsmem'').2 hr
              show g₂ (g₁ s) = s
              rw [hg₁]
              exact hh

theorem countP_map_lt {α : Type} (l : List α) (p : α → Bool) (g : α → α)
    (hmono : ∀ a ∈ l, p (g a) = true → p a = true)
    (hwit : ∃ a ∈ l, p a = true ∧ p (g a) = false) :
    (l.map g).countP p < l.countP p := by
  obtain ⟨a, ha, hpa, hpga⟩ := hwit
  obtain ⟨l₁, l₂, rfl⟩ := List.append_of_mem ha
  rw [List.countP_map]
  rw [List.countP_append, List.countP_append, List.countP_cons, List.countP_cons]
  have h1 : l₁.countP (p ∘ g) ≤ l₁.countP p :=
    List.countP_mono_left (fun x hx hpx => hmono x (List.mem_append_left _ hx) hpx)
  have h2 : l₂.countP (p ∘ g) ≤ l₂.countP p :=
    List.countP_mono_left (fun x hx hpx =>
      hmono x (List.mem_append_right _ (List.mem_cons_of_mem _ hx)) hpx)
  have hga : (p ∘ g) a = false := hpga
  rw [hga, hpa]
  simp only [Bool.false_eq_true, if_false, if_true]
  omega

theorem sched_loop_exits (env : Env) :
    ∀ (fuel : Nat) (st : SchedState),
      (∀ s ∈ st.steps, s.status = AgentStatus.idle ∨ s.status = AgentStatus.completed ∨
        s.status = AgentStatus.error) →
      (st.steps.map (fun s => s.id)).Nodup →
      st.steps.countP (fun s => s.status == AgentStatus.idle) < fuel →
      isCompletedSteps (sched_loop env fuel st).steps = true ∨
        ((getReadySteps (sched_loop env fuel st).steps).isEmpty = true ∧
          (sched_loop env fuel st).steps.any
            (fun s => s.status == AgentStatus.idle) = true) := by
  intro fuel
  induction fuel with
  | zero =>
    intro st _ _ hlt
    exact absurd hlt (Nat.not_lt_zero _)
  | succ fuel ih =>
    intro st hok hnd hlt
    rw [sched_loop_succ]
    by_cases hcomp : isCompletedSteps st.steps = true
    · rw [if_pos hcomp]
      exact Or.inl hcomp
    · rw [if_neg hcomp]
      by_cases hready : (getReadySteps st.steps).isEmpty = true
      · rw [if_pos hready]
        by_cases hidle : st.steps.any (fun s => s.status == AgentStatus.idle) = true
        · rw [if_pos hidle]
          exact Or.inr ⟨hready, hidle⟩
        · rw [if_neg hidle]
          exfalso
          have hnall : ¬ ∀ s ∈ st.steps, s.status = AgentStatus.completed ∨
              s.status = AgentStatus.error :=
            fun hall => hcomp (isCompletedSteps_iff.mpr hall)
          push_neg at hnall
          obtain ⟨s, hs, hterm⟩ := hnall
          rcases hok s hs with h | h | h
          · apply hidle
            rw [List.any_eq_true]
            exact ⟨s, hs, by simp [h]⟩
          · exact hterm.1 h
          · exact hterm.2 h
      · rw [if_neg hready]
        have hrnd := getReadySteps_ids_nodup hnd
        have hrmem := readyIds_subset st.steps
        obtain ⟨g, hsteps, hunt, htch, _⟩ :=
          run_wave_shape env st ((getReadySteps st.steps).map (fun s => s.id)) hrnd hrmem
        apply ih
        · intro s' hs'
          rw [hsteps] at hs'
          obtain ⟨s, hs, rfl⟩ := List.mem_map.mp hs'
          by_cases hc : s.id ∈ (getReadySteps st.steps).map (fun s => s.id)
          · obtain ⟨inp, hg⟩ := htch s hc
            rw [hg]
            rcases applyOutcome_terminal { s with status := AgentStatus.running }
              (env s.id inp) with h | h
            · exact Or.inr (Or.inl h)
            · exact Or.inr (Or.inr h)
          · rw [hunt s hc]
            exact hok s hs
        · rw [run_wave_ids env st _ hrnd hrmem]
          exact hnd
        · have hdec : ((st.steps.map g).countP
              (fun s => s.status == AgentStatus.idle)) <
                st.steps.countP (fun s => s.status == AgentStatus.idle) := by
            apply countP_map_lt
            · intro a ha hpa
              by_cases hc : a.id ∈ (getReadySteps st.steps).map (fun s => s.id)
              · obtain ⟨inp, hg⟩ := htch a hc
                rw [hg] at hpa
                rcases applyOutcome_terminal { a with status := AgentStatus.running }
                  (env a.id inp) with h | h <;> rw [h] at hpa <;> cases hpa
              · rw [hunt a hc] at hpa
                exact hpa
            · have hne : getReadySteps st.steps ≠ [] := by
                intro hc
                rw [hc] at hready
                exact hready rfl
              obtain ⟨r, hr⟩ := List.exists_mem_of_ne_nil _ hne
              have hrmem2 := mem_getReadySteps.mp hr
              refine ⟨r, hrmem2.1, by simp [hrmem2.2.1], ?_⟩
              have hc : r.id ∈ (getReadySteps st.steps).map (fun s => s.id) :=
                List.mem_map.mpr ⟨r, hr, rfl⟩
              obtain ⟨inp, hg⟩ := htch r hc
              rw [hg]
              rcases applyOutcome_terminal { r with status := AgentStatus.running }
                (env r.id inp) with h | h <;> rw [h] <;> rfl
          rw [hsteps]
          omega

theorem applyOutcome_not_success (s : WorkflowStep) (o : TaskOutcome)
    (h : ∀ out, o ≠ TaskOutcome.success out) :
    (applyOutcome s o).status = AgentStatus.error := by
  cases o with
  | success out => exact absurd rfl (h out)
  | failure m => rfl
  | raised m => rfl

theorem applyOutcome_result_not_success (s : WorkflowStep) (o : TaskOutcome)
    (h : ∀ out, o ≠ TaskOutcome.success out) :
    (applyOutcome s o).result = s.result := by
  cases o with
  | success out => exact absurd rfl (h out)
  | failure m => rfl
  | raised m => rfl

theorem applyOutcome_cases (s : WorkflowStep) (o : TaskOutcome) :
    (∃ out, o = TaskOutcome.success out ∧
      (applyOutcome s o).status = AgentStatus.completed ∧
      (applyOutcome s o).result = some out) ∨
    ((applyOutcome s o).status = AgentStatus.error ∧
      (applyOutcome s o).result = s.result) := by
  cases o with
  | success out => exact Or.inl ⟨out, rfl, rfl, rfl⟩
  | failure m => exact Or.inr ⟨rfl, rfl⟩
  | raised m => exact Or.inr ⟨rfl, rfl⟩

theorem sched_loop_trace_inv (env : Env) :
    ∀ (fuel : Nat) (st : SchedState), (st.steps.map (fun s => s.id)).Nodup →
      (st.trace.flatten.map (fun d => d.step_id)).Nodup →
      (∀ sid ∈ st.trace.flatten.map (fun d => d.step_id),
        ∃ s ∈ st.steps, s.id = sid ∧
          (s.status = AgentStatus.completed ∨ s.status = AgentStatus.error)) →
      ((sched_loop env fuel st).trace.flatten.map (fun d => d.step_id)).Nodup := by
  intro fuel
  induction fuel with
  | zero =>
    intro st _ htrace _
    exact htrace
  | succ fuel ih =>
    intro st hnd htrace hinv
    rw [sched_loop_succ]
    by_cases hcomp : isCompletedSteps st.steps = true
    · rw [if_pos hcomp]
      exact htrace
    · rw [if_neg hcomp]
      by_cases hready : (getReadySteps st.steps).isEmpty = true
      · rw [if_pos hready]
        by_cases hidle : st.steps.any (fun s => s.status == AgentStatus.idle) = true
        · rw [if_pos hidle]
          exact htrace
        · rw [if_neg hidle]
          exact ih st hnd htrace hinv
      · rw [if_neg hready]
        have hrnd := getReadySteps_ids_nodup hnd
        have hrmem := readyIds_subset st.steps
        obtain ⟨g, hsteps, hunt, htch, w, htr, hwid⟩ :=
          run_wave_shape env st ((getReadySteps st.steps).map (fun s => s.id)) hrnd hrmem
        have hflat : (run_wave env st
            ((getReadySteps st.steps).map (fun s => s.id))).trace.flatten.map
              (fun d => d.step_id) =
            st.trace.flatten.map (fun d => d.step_id) ++
              (getReadySteps st.steps).map (fun s => s.id) := by
          rw [htr, List.flatten_append, List.map_append]
          simp [hwid]
        apply ih
        · rw [run_wave_ids env st _ hrnd hrmem]
          exact hnd
        · rw [hflat]
          rw [List.nodup_append]
          refine ⟨htrace, hrnd, ?_⟩
          intro sid hold hnew
          obtain ⟨s, hs, hsid, hterm⟩ := hinv sid hold
          have hready2 : s.id ∈ (getReadySteps st.steps).map (fun t => t.id) := by
            rw [hsid]
            exact hnew
          have hidle2 := (idle_of_id_mem_readyIds hnd hs hready2).1
          rcases hterm with h | h <;> rw [h] at hidle2 <;> cases hidle2
        · intro sid hsid
          rw [hflat] at hsid
          rcases List.mem_append.mp hsid with hold | hnew
          · obtain ⟨s, hs, hsid2, hterm⟩ := hinv sid hold
            have hnotready : s.id ∉ (getReadySteps st.steps).map (fun t => t.id) := by
              intro hc
              have hidle2 := (idle_of_id_mem_readyIds hnd hs hc).1
              rcases hterm with h | h <;> rw [h] at hidle2 <;> cases hidle2
            refine ⟨s, ?_, hsid2, hterm⟩
            rw [hsteps]
            have hgs : g s = s := hunt s hnotready
            exact List.mem_map.mpr ⟨s, hs, hgs⟩
          · obtain ⟨r, hr, hrid⟩ := List.mem_map.mp hnew
            have hrsteps := (mem_getReadySteps.mp hr).1
            have hrc : r.id ∈ (getReadySteps st.steps).map (fun t => t.id) :=
              List.mem_map.mpr ⟨r, hr, rfl⟩
            obtain ⟨inp, hg⟩ := htch r hrc
            refine ⟨g r, ?_, ?_, ?_⟩
            · rw [hsteps]
              exact List.mem_map.mpr ⟨r, hrsteps, rfl⟩
            · rw [hg, applyOutcome_id]
              exact hrid
            · rw [hg]
              exact applyOutcome_terminal _ _

theorem sched_loop_blocked (env : Env) (bid : String) :
    ∀ (fuel : Nat) (st : SchedState) (F : WorkflowStep),
      (st.steps.map (fun s => s.id)).Nodup →
      F ∈ st.steps → bid ∈ F.depends_on →
      (∀ t ∈ st.steps, t.id = bid → t.status ≠ AgentStatus.completed) →
      ((∀ inp out, env bid inp ≠ TaskOutcome.success out) ∨
        bid ∉ st.steps.map (fun s => s.id)) →
      F.id ∉ st.trace.flatten.map (fun d => d.step_id) →
      F ∈ (sched_loop env fuel st).steps ∧
        F.id ∉ (sched_loop env fuel st).trace.flatten.map (fun d => d.step_id) ∧
        (∀ t ∈ (sched_loop env fuel st).steps, t.id = bid →
          t.status ≠ AgentStatus.completed) := by
  intro fuel
  induction fuel with
  | zero =>
    intro st F hnd hF hdep hB henv htr
    exact ⟨hF, htr, hB⟩
  | succ fuel ih =>
    intro st F hnd hF hdep hB henv htr
    rw [sched_loop_succ]
    by_cases hcomp : isCompletedSteps st.steps = true
    · rw [if_pos hcomp]
      exact ⟨hF, htr, hB⟩
    · rw [if_neg hcomp]
      by_cases hready : (getReadySteps st.steps).isEmpty = true
      · rw [if_pos hready]
        by_cases hidle : st.steps.any (fun s => s.status == AgentStatus.idle) = true
        · rw [if_pos hidle]
          exact ⟨hF, htr, hB⟩
        · rw [if_neg hidle]
          exact ih st F hnd hF hdep hB henv htr
      · rw [if_neg hready]
        have hrnd := getReadySteps_ids_nodup hnd
        have hrmem := readyIds_subset st.steps
        obtain ⟨g, hsteps, hunt, htch, w, htrw, hwid⟩ :=
          run_wave_shape env st ((getReadySteps st.steps).map (fun s => s.id)) hrnd hrmem
        have hFnotready : F.id ∉ (getReadySteps st.steps).map (fun t => t.id) := by
          intro hc
          obtain ⟨_, hmet⟩ := idle_of_id_mem_readyIds hnd hF hc
          obtain ⟨t, ht, htid, htc⟩ := hmet bid hdep
          exact hB t ht htid htc
        have hgF : g F = F := hunt F hFnotready
        have hF' : F ∈ (run_wave env st
            ((getReadySteps st.steps).map (fun s => s.id))).steps := by
          rw [hsteps]
          exact List.mem_map.mpr ⟨F, hF, hgF⟩
        have hflat : (run_wave env st
            ((getReadySteps st.steps).map (fun s => s.id))).trace.flatten.map
              (fun d => d.step_id) =
            st.trace.flatten.map (fun d => d.step_id) ++
              (getReadySteps st.steps).map (fun s => s.id) := by
          rw [htrw, List.flatten_append, List.map_append]
          simp [hwid]
        have htr' : F.id ∉ (run_wave env st
            ((getReadySteps st.steps).map (fun s => s.id))).trace.flatten.map
              (fun d => d.step_id) := by
          rw [hflat]
          intro hc
          rcases List.mem_append.mp hc with h | h
          · exact htr h
          · exact hFnotready h
        have hB' : ∀ t ∈ (run_wave env st
            ((getReadySteps st.steps).map (fun s => s.id))).steps, t.id = bid →
              t.status ≠ AgentStatus.completed := by
          intro t' ht' htid'
          rw [hsteps] at ht'
          obtain ⟨t, ht, rfl⟩ := List.mem_map.mp ht'
          by_cases hc : t.id ∈ (getReadySteps st.steps).map (fun s => s.id)
          · obtain ⟨inp, hg⟩ := htch t hc
            rcases henv with henv | henv
            · have htid : t.id = bid := by
                rw [hg, applyOutcome_id] at htid'
                exact htid'
              rw [hg]
              rw [applyOutcome_not_success _ _ (by rw [htid]; exact fun out => henv inp out)]
              intro hc2
              cases hc2
            · exfalso
              have : t.id ∈ st.steps.map (fun s => s.id) := List.mem_map.mpr ⟨t, ht, rfl⟩
              have htid : t.id = bid := by
                rw [hg, applyOutcome_id] at htid'
                exact htid'
              rw [htid] at this
              exact henv this
          · rw [hunt t hc] at htid' ⊢
            exact hB t ht htid'
        have henv' : (∀ inp out, env bid inp ≠ TaskOutcome.success out) ∨
            bid ∉ (run_wave env st
              ((getReadySteps st.steps).map (fun s => s.id))).steps.map
                (fun s => s.id) := by
          rcases henv with henv | henv
          · exact Or.inl henv
          · refine Or.inr ?_
            rw [run_wave_ids env st _ hrnd hrmem]
            exact henv
        have hnd' : ((run_wave env st
            ((getReadySteps st.steps).map (fun s => s.id))).steps.map
              (fun s => s.id)).Nodup := by
          rw [run_wave_ids env st _ hrnd hrmem]
          exact hnd
        exact ih _ F hnd' hF' hdep hB' henv' htr'

theorem dependency_key_inj {a b : String}
    (h : "dependency_" ++ a = "dependency_" ++ b) : a = b := by
  have hd := congrArg String.data h
  rw [String.data_append, String.data_append] at hd
  have hdata := List.append_cancel_left hd
  cases a
  cases b
  simp only at hdata
  rw [hdata]

theorem dep_insert_lookup_other (steps : List WorkflowStep) (acc : Dict)
    (dep_id k : String) (h : k ≠ "dependency_" ++ dep_id) :
    dictLookup (dep_insert steps acc dep_id) k = dictLookup acc k := by
  unfold dep_insert
  cases hfind : steps.find? (fun s => s.id == dep_id) with
  | none => rfl
  | some dep_step =>
    show dictLookup (match dep_step.result with
      | some r =>
        if r.isEmpty then acc
        else dictInsert acc ("dependency_" ++ dep_id) (Val.vDict r)
      | none => acc) k = dictLookup acc k
    cases hres : dep_step.result with
    | none => rfl
    | some r =>
      show dictLookup (if r.isEmpty then acc
        else dictInsert acc ("dependency_" ++ dep_id) (Val.vDict r)) k = dictLookup acc k
      by_cases hemp : r.isEmpty
      · rw [if_pos hemp]
      · rw [if_neg hemp, dictLookup_insert]
        rw [if_neg h]

theorem dep_insert_skip (steps : List WorkflowStep) (acc : Dict) (dep_id : String)
    (h : ∀ dep_step, steps.find? (fun s => s.id == dep_id) = some dep_step →
      dep_step.result = none ∨ dep_step.result = some []) :
    dep_insert steps acc dep_id = acc := by
  unfold dep_insert
  cases hfind : steps.find? (fun s => s.id == dep_id) with
  | none => rfl
  | some dep_step =>
    show (match dep_step.result with
      | some r =>
        if r.isEmpty then acc
        else dictInsert acc ("dependency_" ++ dep_id) (Val.vDict r)
      | none => acc) = acc
    rcases h dep_step hfind with hres | hres
    · rw [hres]
    · rw [hres]
      rfl

theorem dep_insert_truthy (steps : List WorkflowStep) (acc : Dict)
    (dep_id : String) (dep_step : WorkflowStep) (r : Dict)
    (hfind : steps.find? (fun s => s.id == dep_id) = some dep_step)
    (hres : dep_step.result = some r) (hne : r ≠ []) :
    dep_insert steps acc dep_id =
      dictInsert acc ("dependency_" ++ dep_id) (Val.vDict r) := by
  unfold dep_insert
  rw [hfind]
  show (match dep_step.result with
    | some r =>
      if r.isEmpty then acc
      else dictInsert acc ("dependency_" ++ dep_id) (Val.vDict r)
    | none => acc) = dictInsert acc ("dependency_" ++ dep_id) (Val.vDict r)
  rw [hres]
  show (if r.isEmpty then acc
    else dictInsert acc ("dependency_" ++ dep_id) (Val.vDict r)) =
      dictInsert acc ("dependency_" ++ dep_id) (Val.vDict r)
  rw [if_neg (by simpa using hne)]

theorem merged_fold_lookup_other (steps : List WorkflowStep) :
    ∀ (deps : List String) (acc : Dict) (k : String),
      (∀ d ∈ deps, k ≠ "dependency_" ++ d) →
      dictLookup (deps.foldl (dep_insert steps) acc) k = dictLookup acc k := by
  intro deps
  induction deps with
  | nil =>
    intro acc k _
    rfl
  | cons d rest ih =>
    intro acc k hk
    rw [List.foldl_cons]
    rw [ih _ k (fun d' hd' => hk d' (List.mem_cons_of_mem _ hd'))]
    exact dep_insert_lookup_other steps acc d k (hk d (List.mem_cons_self _ _))

theorem merged_fold_lookup_skip (steps : List WorkflowStep) (x : String)
    (hx : ∀ dep_step, steps.find? (fun s => s.id == x) = some dep_step →
      dep_step.result = none ∨ dep_step.result = some []) :
    ∀ (deps : List String) (acc : Dict),
      dictLookup (deps.foldl (dep_insert steps) acc) ("dependency_" ++ x) =
        dictLookup acc ("dependency_" ++ x) := by
  intro deps
  induction deps with
  | nil =>
    intro acc
    rfl
  | cons d rest ih =>
    intro acc
    rw [List.foldl_cons]
    rw [ih _]
    by_cases hd : d = x
    · rw [hd, dep_insert_skip steps acc x hx]
    · exact dep_insert_lookup_other steps acc d _
        (fun hc => hd (dependency_key_inj hc).symm)

theorem merged_fold_lookup_truthy (steps : List WorkflowStep) (x : String)
    (dep_step : WorkflowStep) (r : Dict)
    (hfind : steps.find? (fun s => s.id == x) = some dep_step)
    (hres : dep_step.result = some r) (hne : r ≠ []) :
    ∀ (deps : List String) (acc : Dict), x ∈ deps →
      dictLookup (deps.foldl (dep_insert steps) acc) ("dependency_" ++ x) =
        some (Val.vDict r) := by
  intro deps
  induction deps with
  | nil =>
    intro acc hmem
    exact absurd hmem (List.not_mem_nil _)
  | cons d rest ih =>
    intro acc hmem
    rw [List.foldl_cons]
    by_cases hr : x ∈ rest
    · exact ih _ hr
    · have hd : d = x := by
        rcases List.mem_cons.mp hmem with h | h
        · exact h.symm
        · exact absurd h hr
      subst hd
      rw [merged_fold_lookup_other steps rest _ _
        (fun d' hd' hc => hr (by rw [dependency_key_inj hc]; exact hd'))]
      rw [dep_insert_truthy steps acc d dep_step r hfind hres hne]
      rw [dictLookup_insert]
      rw [if_pos rfl]

theorem sched_loop_ids (env : Env) (fuel : Nat) (st : SchedState)
    (hnd : (st.steps.map (fun s => s.id)).Nodup) :
    (sched_loop env fuel st).steps.map (fun s => s.id) =
      st.steps.map (fun s => s.id) := by
  obtain ⟨g, waves, hsteps, _, hprop⟩ := sched_loop_shape env fuel st hnd
  rw [hsteps, List.map_map]
  apply List.map_congr_left
  intro s hs
  show (g s).id = s.id
  by_cases hc : s.id ∈ waves.flatten.map (fun d => d.step_id)
  · obtain ⟨_, inp, hg⟩ := (hprop s hs).1 hc
    rw [hg, applyOutcome_id]
  · rw [(hprop s hs).2 hc]

theorem ewc_steps (env : Env) (pool : List AgentEntry) (ctr : Nat) (wf : Workflow) :
    (execute_workflow_core env pool ctr wf).workflow.steps =
      (sched_loop env (wf.steps.length + 1)
        ⟨wf.steps, AgentStatus.running, pool, ctr, []⟩).steps := by
  unfold execute_workflow_core
  dsimp only
  split <;> rfl

theorem ewc_trace (env : Env) (pool : List AgentEntry) (ctr : Nat) (wf : Workflow) :
    (execute_workflow_core env pool ctr wf).trace =
      (sched_loop env (wf.steps.length + 1)
        ⟨wf.steps, AgentStatus.running, pool, ctr, []⟩).trace := rfl

theorem ewc_results (env : Env) (pool : List AgentEntry) (ctr : Nat) (wf : Workflow) :
    (execute_workflow_core env pool ctr wf).workflow.results =
      (sched_loop env (wf.steps.length + 1)
        ⟨wf.steps, AgentStatus.running, pool, ctr, []⟩).steps.filterMap
        (fun s => match s.result with
          | some r => if r.isEmpty then none else some (s.id, r)
          | none => none) := by
  unfold execute_workflow_core
  dsimp only

theorem ewc_status_error (env : Env) (pool : List AgentEntry) (ctr : Nat)
    (wf : Workflow)
    (h : (sched_loop env (wf.steps.length + 1)
      ⟨wf.steps, AgentStatus.running, pool, ctr, []⟩).steps.any
        (fun s => s.status == AgentStatus.error) = true) :
    (execute_workflow_core env pool ctr wf).workflow.status = AgentStatus.error ∧
      (execute_workflow_core env pool ctr wf).workflow.completed_at =
        wf.completed_at := by
  unfold execute_workflow_core
  dsimp only
  constructor
  · rw [if_pos h]
  · rw [if_pos h]

theorem ewc_status_completed (env : Env) (pool : List AgentEntry) (ctr : Nat)
    (wf : Workflow)
    (h : ¬ (sched_loop env (wf.steps.length + 1)
      ⟨wf.steps, AgentStatus.running, pool, ctr, []⟩).steps.any
        (fun s => s.status == AgentStatus.error) = true) :
    (execute_workflow_core env pool ctr wf).workflow.status = AgentStatus.completed ∧
      (execute_workflow_core env pool ctr wf).workflow.completed_at = some () := by
  unfold execute_workflow_core
  dsimp only
  constructor
  · rw [if_neg h]
  · rw [if_neg h]

/-! ### The claims -/

/-- C1: the readiness evaluator returns exactly the steps `s` of the
workflow with `s.status = Idle` such that every id in `s.depends_on` names
a step of the same workflow whose status is `Completed`; in particular a
dependency in `Error` (or `Idle`, `Running`, or naming no step at all)
never satisfies readiness, and the `not step.depends_on` short-circuit of
the code is subsumed by the vacuous universal over an empty list. -/
theorem readiness_iff_idle_and_deps_completed (wf : Workflow) (step : WorkflowStep) :
    step ∈ wf.get_ready_steps ↔
      step ∈ wf.steps ∧ step.status = AgentStatus.idle ∧
        ∀ dep_id ∈ step.depends_on,
          ∃ t ∈ wf.steps, t.id = dep_id ∧ t.status = AgentStatus.completed :=
  mem_getReadySteps

/-- C2 (evaluation at the failing input): on a two-step cyclic workflow the
deadlock branch fires on the first iteration (no wave is ever dispatched,
the loop terminates immediately) and sets the workflow status to `Error`,
but the post-loop recomputation finds no step in `Error` and overwrites the
status with `Completed`, stamping `completed_at` — the returned verdict of
a deadlocked run is `Completed`, contradicting both the claim and the
deadlock branch's own intent. -/
theorem deadlocked_cycle_reports_completed :
    (execute_workflow_core exEnvAll [] 0 exWfCyc).workflow.status =
        AgentStatus.completed ∧
      (execute_workflow_core exEnvAll [] 0 exWfCyc).workflow.completed_at =
        some () ∧
      (execute_workflow_core exEnvAll [] 0 exWfCyc).trace = [] ∧
      (execute_workflow_core exEnvAll [] 0 exWfCyc).workflow.steps.map
        (fun s => (s.id, s.status)) =
        [("A", AgentStatus.idle), ("B", AgentStatus.idle)] :=
  ⟨rfl, rfl, rfl, rfl⟩

/-- C3: for every workflow that exists in the manager, `execute_workflow`
never raises — it returns `ok` (the only `error` path is the unknown
workflow id `ValueError`); and an exception raised by a single step
executor invocation is caught at the per-step boundary: the step ends in
`Error` carrying the exception message, while every sibling of its batch is
still dispatched (the batch trace records one dispatch per ready step), so
the failure is reported only through the returned workflow status. -/
theorem run_never_raises_and_confines_step_exceptions :
    (∀ (env : Env) (m : AgentManager) (wid : String),
      (m.workflows.find? (fun p => p.1 == wid)).isSome →
      ∃ r, AgentManager.execute_workflow env m wid = Except.ok r) ∧
    (∀ (env : Env) (st : SchedState) (ready : List String) (sid msg : String),
      ready.Nodup → (∀ i ∈ ready, i ∈ st.steps.map (fun s => s.id)) →
      sid ∈ ready → (∀ inp, env sid inp = TaskOutcome.raised msg) →
      (∃ w, (run_wave env st ready).trace = st.trace ++ [w] ∧
        w.map (fun d => d.step_id) = ready) ∧
      ∀ s ∈ st.steps, s.id = sid →
        ∃ s' ∈ (run_wave env st ready).steps, s'.id = sid ∧
          s'.status = AgentStatus.error ∧ s'.error = some msg) := by
  constructor
  · intro env m wid h
    unfold AgentManager.execute_workflow
    cases hfind : m.workflows.find? (fun p => p.1 == wid) with
    | none =>
      rw [hfind] at h
      cases h
    | some p =>
      exact ⟨_, rfl⟩
  · intro env st ready sid msg hnd hmem hsid henv
    obtain ⟨g, hsteps, hunt, htch, w, htr, hwid⟩ := run_wave_shape env st ready hnd hmem
    refine ⟨⟨w, htr, hwid⟩, ?_⟩
    intro s hs hid
    obtain ⟨inp, hg⟩ := htch s (by rw [hid]; exact hsid)
    refine ⟨g s, ?_, ?_, ?_, ?_⟩
    · rw [hsteps]
      exact List.mem_map.mpr ⟨s, hs, rfl⟩
    · rw [hg, applyOutcome_id]
      exact hid
    · rw [hg]
      rw [hid, henv inp]
      rfl
    · rw [hg]
      rw [hid, henv inp]
      rfl

/-- C3 witness: a manager holding workflow `"w1"` returns `ok`, and in a
concrete wave where step `"E"`'s invocation raises `"boom"`, `E` ends in
`Error "boom"` while its sibling `"F"` is still dispatched in the same
batch. -/
theorem run_never_raises_and_confines_step_exceptions_witness :
    (∃ r, AgentManager.execute_workflow exEnvAll exMgrChain "w1" = Except.ok r) ∧
    (∃ w, (run_wave exEnvFailE
        ⟨[exStepE, WorkflowStep.make "F" AgentType.web3_builder "t" [] []],
         AgentStatus.running, [], 0, []⟩ ["E", "F"]).trace = [] ++ [w] ∧
      w.map (fun d => d.step_id) = ["E", "F"]) ∧
    (∃ s' ∈ (run_wave exEnvFailE
        ⟨[exStepE, WorkflowStep.make "F" AgentType.web3_builder "t" [] []],
         AgentStatus.running, [], 0, []⟩ ["E", "F"]).steps, s'.id = "E" ∧
      s'.status = AgentStatus.error ∧ s'.error = some "boom") := by
  have h := run_never_raises_and_confines_step_exceptions
  refine ⟨?_, ?_, ?_⟩
  · exact h.1 exEnvAll exMgrChain "w1" (by decide)
  · exact (h.2 exEnvFailE
      ⟨[exStepE, WorkflowStep.make "F" AgentType.web3_builder "t" [] []],
       AgentStatus.running, [], 0, []⟩ ["E", "F"] "E" "boom"
      (by decide) (by decide) (by decide) (fun inp => rfl)).1
  · exact (h.2 exEnvFailE
      ⟨[exStepE, WorkflowStep.make "F" AgentType.web3_builder "t" [] []],
       AgentStatus.running, [], 0, []⟩ ["E", "F"] "E" "boom"
      (by decide) (by decide) (by decide) (fun inp => rfl)).2
      exStepE (List.mem_cons_self _ _) rfl

/-- C4: in every workflow (distinct step ids, all steps initially fresh)
containing a step `E` with no dependencies whose invocation never succeeds
(so `E` ends in `Error`) and a step `F` with `depends_on = [E.id]`: `F` is
never dispatched (no trace entry), `F` is unchanged at termination (in
particular still `Idle`), the run ends with workflow status `Error`, and
the results mapping contains no entry for `F`. -/
theorem blocked_dependent_never_dispatched
    (env : Env) (pool : List AgentEntry) (ctr : Nat) (wf : Workflow)
    (E F : WorkflowStep)
    (hnd : (wf.steps.map (fun s => s.id)).Nodup)
    (hinit : ∀ s ∈ wf.steps, s.status = AgentStatus.idle ∧ s.result = none)
    (hE : E ∈ wf.steps) (hEdep : E.depends_on = [])
    (hF : F ∈ wf.steps) (hFdep : F.depends_on = [E.id])
    (henv : ∀ inp out, env E.id inp ≠ TaskOutcome.success out) :
    F.id ∉ (execute_workflow_core env pool ctr wf).trace.flatten.map
        (fun d => d.step_id) ∧
      F ∈ (execute_workflow_core env pool ctr wf).workflow.steps ∧
      F.status = AgentStatus.idle ∧
      (execute_workflow_core env pool ctr wf).workflow.status = AgentStatus.error ∧
      ∀ r, (F.id, r) ∉ (execute_workflow_core env pool ctr wf).workflow.results := by
  have hB : ∀ t ∈ wf.steps, t.id = E.id → t.status ≠ AgentStatus.completed := by
    intro t ht _
    rw [(hinit t ht).1]
    intro hc
    cases hc
  have hblocked := sched_loop_blocked env E.id (wf.steps.length + 1)
    ⟨wf.steps, AgentStatus.running, pool, ctr, []⟩ F hnd hF
    (by rw [hFdep]; exact List.mem_cons_self _ _) hB (Or.inl henv)
    (by simp)
  obtain ⟨hFmem, hFtrace, hBfin⟩ := hblocked
  have hexits := sched_loop_exits env (wf.steps.length + 1)
    ⟨wf.steps, AgentStatus.running, pool, ctr, []⟩
    (fun s hs => Or.inl (hinit s hs).1) hnd
    (Nat.lt_succ_of_le (List.countP_le_length _))
  have hFidle : F.status = AgentStatus.idle := (hinit F hF).1
  have hnotcomp : ¬ isCompletedSteps (sched_loop env (wf.steps.length + 1)
      ⟨wf.steps, AgentStatus.running, pool, ctr, []⟩).steps = true := by
    intro hc
    have := isCompletedSteps_iff.mp hc F hFmem
    rcases this with h | h <;> rw [hFidle] at h <;> cases h
  have hdead := hexits.resolve_left hnotcomp
  obtain ⟨g, waves, hsteps, _, hprop⟩ := sched_loop_shape env (wf.steps.length + 1)
    ⟨wf.steps, AgentStatus.running, pool, ctr, []⟩ hnd
  have hgE : g E ∈ (sched_loop env (wf.steps.length + 1)
      ⟨wf.steps, AgentStatus.running, pool, ctr, []⟩).steps := by
    rw [hsteps]
    exact List.mem_map.mpr ⟨E, hE, rfl⟩
  have hEerr : (g E).status = AgentStatus.error := by
    by_cases hc : E.id ∈ waves.flatten.map (fun d => d.step_id)
    · obtain ⟨_, inp, hg⟩ := (hprop E hE).1 hc
      rw [hg]
      exact applyOutcome_not_success _ _ (fun out => henv inp out)
    · exfalso
      have hgEeq : g E = E := (hprop E hE).2 hc
      have hEready : E ∈ getReadySteps (sched_loop env (wf.steps.length + 1)
          ⟨wf.steps, AgentStatus.running, pool, ctr, []⟩).steps := by
        rw [mem_getReadySteps]
        refine ⟨by rw [← hgEeq]; exact hgE, (hinit E hE).1, ?_⟩
        intro dep_id hdep
        rw [hEdep] at hdep
        cases hdep
      rw [List.isEmpty_iff] at hdead
      rw [hdead.1] at hEready
      cases hEready
  have hanyerr : (sched_loop env (wf.steps.length + 1)
      ⟨wf.steps, AgentStatus.running, pool, ctr, []⟩).steps.any
        (fun s => s.status == AgentStatus.error) = true := by
    rw [List.any_eq_true]
    exact ⟨g E, hgE, by simp [hEerr]⟩
  refine ⟨?_, ?_, hFidle, ?_, ?_⟩
  · rw [ewc_trace]
    exact hFtrace
  · rw [ewc_steps]
    exact hFmem
  · exact (ewc_status_error env pool ctr wf hanyerr).1
  · intro r hr
    rw [ewc_results] at hr
    rw [List.mem_filterMap] at hr
    obtain ⟨s, hs, hfs⟩ := hr
    have hndfin : ((sched_loop env (wf.steps.length + 1)
        ⟨wf.steps, AgentStatus.running, pool, ctr, []⟩).steps.map
          (fun s => s.id)).Nodup := by
      rw [sched_loop_ids env _ _ hnd]
      exact hnd
    have hsid : s.id = F.id ∧ s.result = some r := by
      cases hres : s.result with
      | none =>
        rw [hres] at hfs
        have hfs2 : (none : Option (String × Dict)) = some (F.id, r) := hfs
        cases hfs2
      | some r' =>
        rw [hres] at hfs
        have hfs2 : (if r'.isEmpty then none else some (s.id, r')) =
            some (F.id, r) := hfs
        by_cases hemp : r'.isEmpty
        · rw [if_pos hemp] at hfs2
          cases hfs2
        · rw [if_neg hemp] at hfs2
          simp only [Option.some.injEq, Prod.mk.injEq] at hfs2
          exact ⟨hfs2.1, by rw [hfs2.2]⟩
    have hsF : s = F := eq_of_mem_of_id_eq hndfin hs hFmem hsid.1
    rw [hsF] at hsid
    rw [(hinit F hF).2] at hsid
    cases hsid.2

/-- C4 witness: the concrete two-step workflow where `E` raises and `F`
depends on `E`. -/
theorem blocked_dependent_never_dispatched_witness :
    "F" ∉ (execute_workflow_core exEnvFailE [] 0 exWfEF).trace.flatten.map
        (fun d => d.step_id) ∧
      exStepF ∈ (execute_workflow_core exEnvFailE [] 0 exWfEF).workflow.steps ∧
      exStepF.status = AgentStatus.idle ∧
      (execute_workflow_core exEnvFailE [] 0 exWfEF).workflow.status =
        AgentStatus.error ∧
      ∀ r, ("F", r) ∉ (execute_workflow_core exEnvFailE [] 0 exWfEF).workflow.results := by
  have h := blocked_dependent_never_dispatched exEnvFailE [] 0 exWfEF exStepE exStepF
    (by decide)
    (by intro s hs
        have hs' : s ∈ [exStepE, exStepF] := hs
        rw [List.mem_cons] at hs'
        rcases hs' with rfl | hs'
        · exact ⟨rfl, rfl⟩
        · rw [List.mem_cons] at hs'
          rcases hs' with rfl | hs'
          · exact ⟨rfl, rfl⟩
          · cases hs')
    (List.mem_cons_self _ _) rfl
    (List.mem_cons_of_mem _ (List.mem_cons_self _ _)) rfl
    (fun inp out h => by cases h)
  exact h

theorem resultsEntry_iff (s : WorkflowStep) (sid : String) (r : Dict) :
    (match s.result with
      | some r' => if r'.isEmpty then none else some (s.id, r')
      | none => none) = some (sid, r) ↔
      s.id = sid ∧ s.result = some r ∧ r ≠ [] := by
  constructor
  · intro h
    cases hres : s.result with
    | none =>
      rw [hres] at h
      have h2 : (none : Option (String × Dict)) = some (sid, r) := h
      cases h2
    | some r' =>
      rw [hres] at h
      have h2 : (if r'.isEmpty then none else some (s.id, r')) = some (sid, r) := h
      by_cases hemp : r'.isEmpty
      · rw [if_pos hemp] at h2
        cases h2
      · rw [if_neg hemp] at h2
        simp only [Option.some.injEq, Prod.mk.injEq] at h2
        refine ⟨h2.1, by rw [h2.2], ?_⟩
        rw [← h2.2]
        simpa using hemp
  · rintro ⟨hid, hres, hne⟩
    rw [hres]
    have hemp : r.isEmpty = false := by simpa using hne
    show (if r.isEmpty then none else some (s.id, r)) = some (sid, r)
    rw [hemp]
    rw [hid]
    rfl

/-- C5 counterexample: a single step completes with the non-null result
`some {}` (the empty dict, a legal collaborator output), yet the returned
`results` mapping is empty — the Python truthiness filter
`if step.result` drops non-null but empty results, so "an entry for every
step whose result is non-null" is false as stated. -/
theorem results_drop_empty_result :
    (execute_workflow_core exEnvEmptyA [] 0 exWfS).workflow.results = [] ∧
      (execute_workflow_core exEnvEmptyA [] 0 exWfS).workflow.steps.map
        (fun s => (s.id, s.status, s.result)) =
        [("A", AgentStatus.completed, some [])] :=
  ⟨rfl, rfl⟩

/-- C5 (amended): when the scheduler loop finishes, `results` holds the
pair `(step.id, step.result)` exactly for the steps whose result is
non-null AND non-empty (Python truthiness of `if step.result`); steps that
ended in `Error` or never ran have no result at all and so contribute
nothing. -/
theorem results_iff_truthy_result (env : Env) (pool : List AgentEntry) (ctr : Nat)
    (wf : Workflow)
    (hnd : (wf.steps.map (fun s => s.id)).Nodup)
    (hinit : ∀ s ∈ wf.steps, s.status = AgentStatus.idle ∧ s.result = none) :
    (∀ sid r, (sid, r) ∈ (execute_workflow_core env pool ctr wf).workflow.results ↔
      ∃ s ∈ (execute_workflow_core env pool ctr wf).workflow.steps,
        s.id = sid ∧ s.result = some r ∧ r ≠ []) ∧
    (∀ s ∈ (execute_workflow_core env pool ctr wf).workflow.steps,
      s.status ≠ AgentStatus.completed → s.result = none) := by
  constructor
  · intro sid r
    rw [ewc_results, ewc_steps]
    rw [List.mem_filterMap]
    constructor
    · rintro ⟨s, hs, hfs⟩
      exact ⟨s, hs, (resultsEntry_iff s sid r).mp hfs⟩
    · rintro ⟨s, hs, hprops⟩
      exact ⟨s, hs, (resultsEntry_iff s sid r).mpr hprops⟩
  · intro s' hs' hstat
    rw [ewc_steps] at hs'
    obtain ⟨g, waves, hsteps, _, hprop⟩ := sched_loop_shape env (wf.steps.length + 1)
      ⟨wf.steps, AgentStatus.running, pool, ctr, []⟩ hnd
    rw [hsteps] at hs'
    obtain ⟨s, hs, rfl⟩ := List.mem_map.mp hs'
    by_cases hc : s.id ∈ waves.flatten.map (fun d => d.step_id)
    · obtain ⟨_, inp, hg⟩ := (hprop s hs).1 hc
      rcases applyOutcome_cases { s with status := AgentStatus.running }
        (env s.id inp) with ⟨out, _, hcomp, _⟩ | ⟨_, hres⟩
      · rw [hg] at hstat
        exact absurd hcomp hstat
      · rw [hg, hres]
        exact (hinit s hs).2
    · rw [(hprop s hs).2 hc]
      exact (hinit s hs).2

/-- C5 witness: in the successful linear chain both steps contribute their
(non-empty) results, instantiating the amended characterization. -/
theorem results_iff_truthy_result_witness :
    ∃ s ∈ (execute_workflow_core exEnvChain [] 0 exWfChain).workflow.steps,
      s.id = "A" ∧ s.result = some [("x", Val.vInt 1)] ∧
        [("x", Val.vInt 1)] ≠ ([] : Dict) := by
  have h := results_iff_truthy_result exEnvChain [] 0 exWfChain
    (by decide)
    (by intro s hs
        have hs' : s ∈ [exStepA, exStepB] := hs
        rw [List.mem_cons] at hs'
        rcases hs' with rfl | hs'
        · exact ⟨rfl, rfl⟩
        · rw [List.mem_cons] at hs'
          rcases hs' with rfl | hs'
          · exact ⟨rfl, rfl⟩
          · cases hs')
  apply (h.1 "A" [("x", Val.vInt 1)]).mp
  exact List.mem_cons_self _ _

/-- C6 counterexample: in a chain where `A` succeeds with the non-null
result `some {}` and `B` depends on `A`, the input dispatched for `B`
contains no `dependency_A` entry — the merge guard `if dep_step.result`
uses Python truthiness, so a dependency "that has a result" is skipped when
that result is the empty dict, contradicting the claim as stated. -/
theorem merged_input_drops_empty_dep_result :
    (execute_workflow_core exEnvEmptyA [] 0 exWfChain).trace.map
      (fun w => w.map (fun d => (d.step_id, dictLookup d.input "dependency_A"))) =
      [[("A", none)], [("B", none)]] ∧
    (execute_workflow_core exEnvEmptyA [] 0 exWfChain).workflow.steps.map
      (fun s => (s.id, s.result)) =
      [("A", some []), ("B", some [("y", Val.vInt 2)])] :=
  ⟨rfl, rfl⟩

/-- C6 (amended): the input dispatched to the agent is the copy of
`step.input_data` extended, for each id in `depends_on` whose step has a
non-null AND non-empty result `r` (Python truthiness of
`if dep_step.result`), with the entry `dependency_<id> = r`; keys other
than these namespaced ones are never touched, so caller-supplied keys keep
their values; a dependency without a truthy result leaves even its own
namespaced key unchanged.  For the two-step chain where `A` succeeds with
`{"x": 1}`, the input dispatched for `B` contains
`dependency_A = {"x": 1}` alongside `B`'s own key. -/
theorem merged_input_characterization :
    (∀ (steps : List WorkflowStep) (step : WorkflowStep),
      (∀ k, (∀ dep_id ∈ step.depends_on, k ≠ "dependency_" ++ dep_id) →
        dictLookup (merged_input steps step) k = dictLookup step.input_data k) ∧
      (∀ dep_id ∈ step.depends_on, ∀ dep_step r,
        steps.find? (fun s => s.id == dep_id) = some dep_step →
        dep_step.result = some r → r ≠ [] →
        dictLookup (merged_input steps step) ("dependency_" ++ dep_id) =
          some (Val.vDict r)) ∧
      (∀ dep_id ∈ step.depends_on,
        (∀ dep_step, steps.find? (fun s => s.id == dep_id) = some dep_step →
          dep_step.result = none ∨ dep_step.result = some []) →
        dictLookup (merged_input steps step) ("dependency_" ++ dep_id) =
          dictLookup step.input_data ("dependency_" ++ dep_id))) ∧
    (execute_workflow_core exEnvChain [] 0 exWfChain).trace.map
      (fun w => w.map (fun d => (d.step_id,
        dictLookup d.input "dependency_A", dictLookup d.input "own"))) =
      [[("A", none, none)],
       [("B", some (Val.vDict [("x", Val.vInt 1)]), some (Val.vInt 9))]] := by
  constructor
  · intro steps step
    refine ⟨?_, ?_, ?_⟩
    · intro k hk
      exact merged_fold_lookup_other steps _ _ k hk
    · intro dep_id hdep dep_step r hfind hres hne
      exact merged_fold_lookup_truthy steps dep_id dep_step r hfind hres hne _ _ hdep
    · intro dep_id hdep hx
      exact merged_fold_lookup_skip steps dep_id hx _ _
  · rfl

/-- C6 witness: instantiating the amended characterization on the state in
which `B` is dispatched after `A` completed with `{"x": 1}`. -/
theorem merged_input_characterization_witness :
    dictLookup (merged_input
      [{ id := "A", agent_type := AgentType.web3_builder, task_type := "t",
         input_data := [], depends_on := [],
         status := AgentStatus.completed, result := some [("x", Val.vInt 1)],
         error := none }, exStepB] exStepB) ("dependency_" ++ "A") =
      some (Val.vDict [("x", Val.vInt 1)]) := by
  have h := (merged_input_characterization.1
    [{ id := "A", agent_type := AgentType.web3_builder, task_type := "t",
       input_data := [], depends_on := [],
       status := AgentStatus.completed, result := some [("x", Val.vInt 1)],
       error := none }, exStepB] exStepB).2.1
  exact h "A" (by decide) _ [("x", Val.vInt 1)] rfl rfl (by simp)

/-- C7: the readiness evaluator only ever selects `Idle` steps (so a
`Running`, `Completed` or `Error` step is never re-selected), a step that
is `Completed` or `Error` is left untouched by the whole run (terminal
statuses), and the dispatch trace of a run contains each step id at most
once — the executor is invoked at most once per step, and no step ever
re-enters `Idle` (its only transition is a single
`Idle → Running → Completed/Error` chain recorded by that one dispatch). -/
theorem executor_invoked_at_most_once (env : Env) (pool : List AgentEntry)
    (ctr : Nat) (wf : Workflow)
    (hnd : (wf.steps.map (fun s => s.id)).Nodup) :
    (∀ s ∈ wf.get_ready_steps, s.status = AgentStatus.idle) ∧
    (∀ s ∈ wf.steps,
      (s.status = AgentStatus.completed ∨ s.status = AgentStatus.error) →
      s ∈ (execute_workflow_core env pool ctr wf).workflow.steps) ∧
    ((execute_workflow_core env pool ctr wf).trace.flatten.map
      (fun d => d.step_id)).Nodup := by
  refine ⟨?_, ?_, ?_⟩
  · intro s hs
    exact (mem_getReadySteps.mp hs).2.1
  · intro s hs hterm
    rw [ewc_steps]
    obtain ⟨g, waves, hsteps, _, hprop⟩ := sched_loop_shape env (wf.steps.length + 1)
      ⟨wf.steps, AgentStatus.running, pool, ctr, []⟩ hnd
    rw [hsteps]
    have hgs : g s = s := by
      apply (hprop s hs).2
      intro hc
      have hidle := ((hprop s hs).1 hc).1
      rcases hterm with h | h <;> rw [h] at hidle <;> cases hidle
    exact List.mem_map.mpr ⟨s, hs, hgs⟩
  · rw [ewc_trace]
    apply sched_loop_trace_inv env (wf.steps.length + 1)
      ⟨wf.steps, AgentStatus.running, pool, ctr, []⟩ hnd
    · simp
    · intro sid hsid
      simp at hsid

/-- C7 witness: the linear-chain run dispatches each of `A` and `B` exactly
once. -/
theorem executor_invoked_at_most_once_witness :
    ((execute_workflow_core exEnvChain [] 0 exWfChain).trace.flatten.map
      (fun d => d.step_id)).Nodup :=
  (executor_invoked_at_most_once exEnvChain [] 0 exWfChain (by decide)).2.2

/-- C8 counterexample: a step whose `depends_on` names no step of its
workflow is NEVER dispatched — it remains `Idle` with no error recorded
(the dispatch trace is empty), so the configuration error is not surfaced
as an `Error` of the offending step on a first dispatch attempt; and a
step with an unregistered agent type (`VALIDATOR` has no pool entry and no
dedicated implementation) does not fail either: assignment silently
creates a defaulted agent (`validator_0`) and the step completes
normally. -/
theorem config_error_not_an_immediate_step_failure :
    ((execute_workflow_core exEnvAll [] 0 exWfG).trace = [] ∧
      (execute_workflow_core exEnvAll [] 0 exWfG).workflow.steps.map
        (fun s => (s.id, s.status, s.error)) =
        [("G", AgentStatus.idle, none)]) ∧
    ((execute_workflow_core exEnvAll AgentManager.make.agents 0 exWfH).workflow.steps.map
        (fun s => (s.id, s.status)) = [("H", AgentStatus.completed)] ∧
      (execute_workflow_core exEnvAll AgentManager.make.agents 0 exWfH).trace.map
        (fun w => w.map (fun d => (d.step_id, d.agent_id))) =
        [[("H", "validator_0")]]) :=
  ⟨⟨rfl, rfl⟩, ⟨rfl, rfl⟩⟩

/-- C8 (amended): configuration errors are handled lazily but not as step
failures: a step with a `depends_on` id naming no step of the workflow is
never dispatched and keeps its initial (`Idle`) state — the run ends via
the deadlock branch rather than erroring that step — while an agent type
with no idle pool entry never fails assignment: a fresh idle entry of the
requested type is synthesized and registered, and the step executes
normally; workflow construction is never rejected. -/
theorem config_errors_surface_lazily :
    (∀ (env : Env) (pool : List AgentEntry) (ctr : Nat) (wf : Workflow)
      (G : WorkflowStep) (bid : String),
      (wf.steps.map (fun s => s.id)).Nodup →
      G ∈ wf.steps → bid ∈ G.depends_on →
      bid ∉ wf.steps.map (fun s => s.id) →
      G.id ∉ (execute_workflow_core env pool ctr wf).trace.flatten.map
          (fun d => d.step_id) ∧
        G ∈ (execute_workflow_core env pool ctr wf).workflow.steps) ∧
    (∀ (pool : List AgentEntry) (ctr : Nat) (t : AgentType),
      pool.find? (fun a => a.type == t && a.status == AgentStatus.idle) = none →
      ∃ e : AgentEntry, get_or_create_agent_for_step pool ctr t =
        (e.id, pool ++ [e], ctr + 1) ∧ e.type = t ∧ e.status = AgentStatus.idle) := by
  constructor
  · intro env pool ctr wf G bid hnd hG hdep hmissing
    have hB : ∀ t ∈ wf.steps, t.id = bid → t.status ≠ AgentStatus.completed := by
      intro t ht htid
      exfalso
      apply hmissing
      rw [← htid]
      exact List.mem_map.mpr ⟨t, ht, rfl⟩
    have hblocked := sched_loop_blocked env bid (wf.steps.length + 1)
      ⟨wf.steps, AgentStatus.running, pool, ctr, []⟩ G hnd hG hdep hB
      (Or.inr hmissing) (by simp)
    refine ⟨?_, ?_⟩
    · rw [ewc_trace]
      exact hblocked.2.1
    · rw [ewc_steps]
      exact hblocked.1
  · intro pool ctr t hfind
    refine ⟨{ id := t.val ++ "_" ++ toString ctr, type := t,
              status := AgentStatus.idle }, ?_, rfl, rfl⟩
    unfold get_or_create_agent_for_step
    rw [hfind]

/-- C8 witness: the step with the dangling dependency id is never
dispatched and survives the run unchanged, and assignment for the
unregistered `VALIDATOR` type synthesizes a fresh idle entry. -/
theorem config_errors_surface_lazily_witness :
    ("G" ∉ (execute_workflow_core exEnvAll [] 0 exWfG).trace.flatten.map
        (fun d => d.step_id) ∧
      exStepG ∈ (execute_workflow_core exEnvAll [] 0 exWfG).workflow.steps) ∧
    ∃ e : AgentEntry, get_or_create_agent_for_step AgentManager.make.agents 0
        AgentType.validator =
      (e.id, AgentManager.make.agents ++ [e], 1) ∧ e.type = AgentType.validator ∧
        e.status = AgentStatus.idle := by
  constructor
  · exact config_errors_surface_lazily.1 exEnvAll [] 0 exWfG exStepG "missing"
      (by decide) (List.mem_cons_self _ _) (by decide) (by decide)
  · exact config_errors_surface_lazily.2 AgentManager.make.agents 0
      AgentType.validator rfl

/-- C9 counterexample: two independent steps of the same agent type are
dispatched in the SAME wave and both receive the SAME pool entry
`"web3_builder"` — nothing on the workflow execution path ever marks an
agent non-idle, so the pool does hold two steps executing concurrently on
one agent handle, contradicting the exclusivity clause of the claim. -/
theorem same_wave_shares_agent_handle :
    (execute_workflow_core exEnvAll AgentManager.make.agents 0 exWfCD).trace.map
      (fun w => w.map (fun d => (d.step_id, d.agent_id))) =
      [[("C", "web3_builder"), ("D", "web3_builder")]] ∧
    (execute_workflow_core exEnvAll AgentManager.make.agents 0 exWfCD).pool.map
      (fun a => (a.id, a.status)) = [("web3_builder", AgentStatus.idle)] :=
  ⟨rfl, rfl⟩

/-- C9 (amended): agent assignment returns the first pool entry whose type
matches and whose status is `Idle`, and synthesizes and registers a fresh
idle entry only when no such entry exists; two sequential workflows of the
same agent type therefore reuse the same pool entry (it is still `Idle`
between runs, since workflow execution never changes agent status) — but
for the same reason two steps of one wave requesting the same type share
that single handle, so no concurrent-exclusivity guarantee holds. -/
theorem agent_assignment_first_idle_match :
    (∀ (pool : List AgentEntry) (ctr : Nat) (t : AgentType) (a : AgentEntry),
      pool.find? (fun a => a.type == t && a.status == AgentStatus.idle) = some a →
      get_or_create_agent_for_step pool ctr t = (a.id, pool, ctr) ∧
        a ∈ pool ∧ a.type = t ∧ a.status = AgentStatus.idle) ∧
    (∀ (pool : List AgentEntry) (ctr : Nat) (t : AgentType),
      pool.find? (fun a => a.type == t && a.status == AgentStatus.idle) = none →
      get_or_create_agent_for_step pool ctr t =
        (t.val ++ "_" ++ toString ctr,
          pool ++ [{ id := t.val ++ "_" ++ toString ctr, type := t,
                     status := AgentStatus.idle }], ctr + 1)) ∧
    (∃ r1 m1, AgentManager.execute_workflow exEnvAll exMgrTwo "w1" =
        Except.ok (r1, m1) ∧
      r1.trace.map (fun w => w.map (fun d => d.agent_id)) = [["web3_builder"]] ∧
      m1.agents.map (fun a => (a.id, a.status)) =
        [("web3_builder", AgentStatus.idle)] ∧
      ∃ r2 m2, AgentManager.execute_workflow exEnvAll m1 "w2" =
        Except.ok (r2, m2) ∧
        r2.trace.map (fun w => w.map (fun d => d.agent_id)) =
          [["web3_builder", "web3_builder"]] ∧
        m2.agents.map (fun a => a.id) = ["web3_builder"]) := by
  refine ⟨?_, ?_, ?_⟩
  · intro pool ctr t a hfind
    have hpred := List.find?_some hfind
    simp only [Bool.and_eq_true, beq_iff_eq] at hpred
    refine ⟨?_, List.mem_of_find?_eq_some hfind, hpred.1, hpred.2⟩
    unfold get_or_create_agent_for_step
    rw [hfind]
  · intro pool ctr t hfind
    unfold get_or_create_agent_for_step
    rw [hfind]
  · exact ⟨_, _, rfl, rfl, rfl, _, _, rfl, rfl, rfl⟩

/-- C9 witness: the default pool's single idle `web3_builder` entry is
returned unchanged by assignment. -/
theorem agent_assignment_first_idle_match_witness :
    get_or_create_agent_for_step AgentManager.make.agents 0 AgentType.web3_builder =
      ("web3_builder", AgentManager.make.agents, 0) :=
  (agent_assignment_first_idle_match.1 AgentManager.make.agents 0
    AgentType.web3_builder
    { id := "web3_builder", type := AgentType.web3_builder,
      status := AgentStatus.idle } rfl).1

/-- C10: workflow execution never mutates any step's own input mapping —
the executor merges dependency results into a fresh copy
(`step.input_data.copy()`), so after the run every step's `input_data`
equals its value at creation and carries no added `dependency_<id>`
keys. -/
theorem input_data_never_mutated (env : Env) (pool : List AgentEntry)
    (ctr : Nat) (wf : Workflow)
    (hnd : (wf.steps.map (fun s => s.id)).Nodup) :
    (execute_workflow_core env pool ctr wf).workflow.steps.map
      (fun s => s.input_data) = wf.steps.map (fun s => s.input_data) := by
  rw [ewc_steps]
  obtain ⟨g, waves, hsteps, _, hprop⟩ := sched_loop_shape env (wf.steps.length + 1)
    ⟨wf.steps, AgentStatus.running, pool, ctr, []⟩ hnd
  rw [hsteps, List.map_map]
  apply List.map_congr_left
  intro s hs
  show (g s).input_data = s.input_data
  by_cases hc : s.id ∈ waves.flatten.map (fun d => d.step_id)
  · obtain ⟨_, inp, hg⟩ := (hprop s hs).1 hc
    rw [hg, applyOutcome_input_data]
  · rw [(hprop s hs).2 hc]

/-- C10 witness: the chain run leaves both steps' input mappings exactly
as created. -/
theorem input_data_never_mutated_witness :
    (execute_workflow_core exEnvChain [] 0 exWfChain).workflow.steps.map
      (fun s => s.input_data) = exWfChain.steps.map (fun s => s.input_data) :=
  input_data_never_mutated exEnvChain [] 0 exWfChain (by decide)
